import Mathlib

/-!
# mdimg2hub: scanning, upload orchestration and rewriting of image references

A shallow embedding of `src/main.go` (`processMarkdownFile`,
`uploadImageToGitHub`, `ensureDirectoryExists`).

* A Go `string` / `[]byte` is a `List Nat` of byte values.  The code only ever
  compares a byte with the ASCII delimiters `!`, `[`, `]`, `(`, `)` and with
  line feed, so no bound on the byte values is needed.
* The file system, the clock and the HTTP transport are an explicit `Host`;
  the package-level variable `directoryChecked` and the requests sent are an
  explicit `State` that every call threads through.
-/

namespace Mdimg2hub

/-! ## Byte strings -/

/-- Bytes of an ASCII literal. -/
def str (s : String) : List Nat := s.toList.map Char.toNat

/-- The Go slice expression `s[lo:hi]`. -/
def slice (s : List Nat) (lo hi : Nat) : List Nat := (s.drop lo).take (hi - lo)

/-- Go `strings.HasPrefix(s, p)`. -/
def hasPrefix (s p : List Nat) : Bool := p.isPrefixOf s

/-- The literal `"http://"` of line 354. -/
def httpScheme : List Nat := [104, 116, 116, 112, 58, 47, 47]

/-- The literal `"https://"` of line 354. -/
def httpsScheme : List Nat := [104, 116, 116, 112, 115, 58, 47, 47]

/-- Line 354: `strings.HasPrefix(imgURL, "http://") || strings.HasPrefix(imgURL, "https://")`. -/
def isRemote (imgURL : List Nat) : Bool :=
  hasPrefix imgURL httpScheme || hasPrefix imgURL httpsScheme

/-! ## The scanner: `regexp.MustCompile("!\[(.*?)\]\((.*?)\)")`, line 324

The pattern is matched with Go's leftmost-first (backtracking priority)
semantics.  `.` matches any character but line feed; every literal of the
pattern is ASCII, so matching byte by byte agrees with matching rune by rune.
-/

/-- The tail `(.*?)\)` of the pattern: the lazy star first tries to stop (the
next byte is `)`), and otherwise consumes one byte that is not a line feed.
Returns the length of the second capture. -/
def lazyTarget : List Nat → Option Nat
  | [] => none
  | c :: rest =>
    if c = 41 then some 0
    else if c = 10 then none
    else (lazyTarget rest).map (· + 1)

/-- The part `\]\((.*?)\)` of the pattern, after the first capture.  Returns the
length of the second capture. -/
def closeAlt : List Nat → Option Nat
  | 93 :: 40 :: rest => lazyTarget rest
  | _ => none

/-- The part `(.*?)\]\((.*?)\)` of the pattern: the lazy star first tries to stop
(the rest of the pattern, `closeAlt`, matches here), and otherwise consumes one
byte that is not a line feed.  Returns the lengths of the two captures. -/
def lazyAlt : List Nat → Option (Nat × Nat)
  | [] => none
  | c :: rest =>
    match closeAlt (c :: rest) with
    | some t => some (0, t)
    | none =>
      if c = 10 then none
      else (lazyAlt rest).map (fun p => (p.1 + 1, p.2))

/-- A match of the whole pattern anchored at the head of the input: `![`, then
`lazyAlt`.  Returns the lengths of the two captures. -/
def matchHere : List Nat → Option (Nat × Nat)
  | 33 :: 91 :: rest => lazyAlt rest
  | _ => none

/-- One entry of `re.FindAllStringSubmatchIndex`: `lo = match[0]`, `hi = match[1]`,
`altTextStart = match[2]`, `altTextEnd = match[3]`, `urlStart = match[4]`,
`urlEnd = match[5]`. -/
structure Match where
  lo : Nat
  hi : Nat
  altTextStart : Nat
  altTextEnd : Nat
  urlStart : Nat
  urlEnd : Nat
deriving DecidableEq, Repr

/-- The index vector of a match at offset `off` whose captures have lengths `a` and `t`. -/
def mkMatch (off a t : Nat) : Match :=
  { lo := off, hi := off + a + t + 5,
    altTextStart := off + 2, altTextEnd := off + 2 + a,
    urlStart := off + a + 4, urlEnd := off + a + 4 + t }

/-- The loop of `FindAll`: `s` is the input from byte offset `off` on.  While
`skip > 0` the position lies inside the previous match and is passed over (the
search resumes at the end of a match; the pattern never matches the empty
string); otherwise the leftmost-first match at this position is taken if there
is one, and the search moves one byte on if there is none. -/
def scanAux : List Nat → Nat → Nat → List Match
  | [], _, _ => []
  | _ :: rest, off, skip + 1 => scanAux rest (off + 1) skip
  | c :: rest, off, 0 =>
    match matchHere (c :: rest) with
    | some (a, t) => mkMatch off a t :: scanAux rest (off + 1) (a + t + 4)
    | none => scanAux rest (off + 1) 0

/-- Line 325: `re.FindAllStringSubmatchIndex(string(content), -1)`. -/
def scan (content : List Nat) : List Match := scanAux content 0 0

/-! ## Standard-library helpers used by the code -/

/-- Go `bytes.Replace(s, old, new, 1)`: the first occurrence of `old` in `s` is
replaced by `new`; `s` is returned unchanged when `old` does not occur.  (An
empty `old` occurs at offset 0.) -/
def bytesReplace1 : List Nat → List Nat → List Nat → List Nat
  | [], old, new => if old.isEmpty then new else []
  | c :: rest, old, new =>
    if old.isPrefixOf (c :: rest) then new ++ (c :: rest).drop old.length
    else c :: bytesReplace1 rest old new

/-- The loop of Go `filepath.Ext`, walking from the last byte towards the first:
stop with no extension at a path separator `/`, return the suffix at the first `.`. -/
def extLoop : List Nat → List Nat → List Nat
  | [], _ => []
  | c :: before, suffix =>
    if c = 47 then []
    else if c = 46 then c :: suffix
    else extLoop before (c :: suffix)

/-- Go `filepath.Ext(path)` (with `/` as the path separator). -/
def Ext (path : List Nat) : List Nat := extLoop path.reverse []

/-- Decimal digits of `n`, most significant first, pushed in front of `acc`. -/
def decimalAux : Nat → Nat → List Nat → List Nat
  | 0, _, acc => acc
  | fuel + 1, n, acc =>
    if n < 10 then (48 + n) :: acc
    else decimalAux fuel (n / 10) ((48 + n % 10) :: acc)

/-- The decimal numeral of a natural number. -/
def decimal (n : Nat) : List Nat := decimalAux (n + 1) n []

/-- The verb `%d` of `fmt.Sprintf` on an `int64`: a minus sign for a negative
number, then the decimal numeral of the magnitude. -/
def fmtInt (t : Int) : List Nat :=
  if t < 0 then 45 :: decimal t.natAbs else decimal t.natAbs

/-! ## Configuration, host and process state -/

/-- The struct `GitHubConfig`, lines 23-30. -/
structure GitHubConfig where
  Token : List Nat
  Owner : List Nat
  Repo : List Nat
  Branch : List Nat
  ImagesPath : List Nat
  UseCDN : Bool

/-- What the process does to the outside and to its global flag, in order. -/
inductive Event
  /-- Line 432: the `GET /repos/{owner}/{repo}` request is sent. -/
  | getRepo (url : List Nat)
  /-- Line 545 (`ensureDirectoryExists`): the `PUT` of the empty `.gitkeep` is sent. -/
  | putSentinel (url branch : List Nat)
  /-- Line 453: `directoryChecked = true`. -/
  | setDirectoryChecked
  /-- Line 482: the `PUT` of an image is sent (the body carries the base64 of `imgData`). -/
  | putImage (url imgData branch : List Nat)
deriving DecidableEq, Repr

/-- The outcome of one `client.Do`. -/
structure Reply where
  /-- `client.Do` returned an error. -/
  err : Bool
  /-- The field `resp.StatusCode`. -/
  status : Nat
  /-- The result of decoding the body as `UploadResponse`: `none` when the
  decoder fails, otherwise the field `Content.DownloadURL`. -/
  downloadURL : Option (List Nat)

/-- Everything the code asks of its surroundings. -/
structure Host where
  /-- The call `ioutil.ReadFile`; `none` when it returns an error. -/
  readFile : List Nat → Option (List Nat)
  /-- The test `os.IsNotExist(err)` on the error of `os.Stat`. -/
  notExist : List Nat → Bool
  /-- The call `ioutil.WriteFile` returns an error for this path. -/
  writeFails : List Nat → Bool
  /-- Lines 359-364: `imgURL` itself when `filepath.IsAbs(imgURL)`, otherwise
  `filepath.Join(filepath.Dir(filePath), imgURL)`. -/
  imgPath : List Nat → List Nat → List Nat
  /-- Go `filepath.Join`. -/
  join : List Nat → List Nat → List Nat
  /-- The call `http.NewRequest` returns an error for this URL. -/
  badURL : List Nat → Bool
  /-- The value of `time.Now().UnixNano()`, which may depend on all that happened before. -/
  now : List Event → Int
  /-- The answer to the request sent last, which may depend on all that happened before. -/
  reply : List Event → Reply

/-- The mutable state of the process: the package-level variable
`directoryChecked` (line 40) and the history of events. -/
structure State where
  directoryChecked : Bool
  trace : List Event
deriving DecidableEq, Repr

/-- The state at process start: `var directoryChecked bool = false`, nothing sent. -/
def State.init : State := { directoryChecked := false, trace := [] }

/-- Record one event. -/
def State.emit (st : State) (e : Event) : State := { st with trace := st.trace ++ [e] }

/-- The errors `uploadImageToGitHub` and `ensureDirectoryExists` return (each is
a `fmt.Errorf` in the source; `json.Marshal` of a map of strings cannot fail). -/
inductive UploadError
  /-- Line 414: "error reading image file". -/
  | readImage
  /-- Line 427: "error creating request to check repo". -/
  | createCheckRequest
  /-- Line 434: "error checking repository". -/
  | checkRepository
  /-- Line 439: "repository %s/%s not found - please check if it exists and is
  accessible with your token", with `config.Owner` and `config.Repo`. -/
  | repoNotFound (owner repo : List Nat)
  /-- Line 442: "error accessing repository: %s". -/
  | accessRepository (status : Nat)
  /-- Lines 475 and 537: "error creating request". -/
  | createRequest
  /-- Lines 484 and 547: "error sending request". -/
  | sendRequest
  /-- Lines 491 and 554: "GitHub API error". -/
  | apiError (status : Nat)
  /-- Line 497: "error parsing response". -/
  | parseResponse
deriving DecidableEq, Repr

/-- Lines 424: `fmt.Sprintf("https://api.github.com/repos/%s/%s", config.Owner, config.Repo)`. -/
def repoURL (config : GitHubConfig) : List Nat :=
  str "https://api.github.com/repos/" ++ config.Owner ++ [47] ++ config.Repo

/-- Lines 470 and 532:
`fmt.Sprintf("https://api.github.com/repos/%s/%s/contents/%s", config.Owner, config.Repo, path)`. -/
def contentsURL (config : GitHubConfig) (path : List Nat) : List Nat :=
  str "https://api.github.com/repos/" ++ config.Owner ++ [47] ++ config.Repo
    ++ str "/contents/" ++ path

/-- Line 504:
`fmt.Sprintf("https://cdn.jsdelivr.net/gh/%s/%s@%s/%s", Owner, Repo, Branch, remotePath)`. -/
def cdnURL (config : GitHubConfig) (remotePath : List Nat) : List Nat :=
  str "https://cdn.jsdelivr.net/gh/" ++ config.Owner ++ [47] ++ config.Repo ++ [64]
    ++ config.Branch ++ [47] ++ remotePath

/-- Line 420: `imgName := fmt.Sprintf("%d%s", timestamp, imgExt)`. -/
def imgName (timestamp : Int) (imgExt : List Nat) : List Nat := fmtInt timestamp ++ imgExt

/-! ## `ensureDirectoryExists`, lines 513-558 -/

/-- The function `ensureDirectoryExists`. -/
def ensureDirectoryExists (h : Host) (config : GitHubConfig) (st : State) :
    Except UploadError Unit × State :=
  let gitkeepPath := h.join config.ImagesPath (str ".gitkeep")
  let url := contentsURL config gitkeepPath
  if h.badURL url then (.error .createRequest, st)
  else
    let st1 := st.emit (.putSentinel url config.Branch)
    let resp := h.reply st1.trace
    if resp.err then (.error .sendRequest, st1)
    else if resp.status ≠ 201 ∧ resp.status ≠ 422 then (.error (.apiError resp.status), st1)
    else (.ok (), st1)

/-! ## `uploadImageToGitHub`, lines 410-510 -/

/-- The function `uploadImageToGitHub`. -/
def uploadImageToGitHub (h : Host) (imgPath : List Nat) (config : GitHubConfig) (st : State) :
    Except UploadError (List Nat) × State :=
  match h.readFile imgPath with
  | none => (.error .readImage, st)
  | some imgData =>
    let imgExt := Ext imgPath
    let timestamp := h.now st.trace
    let remotePath := h.join config.ImagesPath (imgName timestamp imgExt)
    if h.badURL (repoURL config) then (.error .createCheckRequest, st)
    else
      let st1 := st.emit (.getRepo (repoURL config))
      let resp := h.reply st1.trace
      if resp.err then (.error .checkRepository, st1)
      else if resp.status = 404 then (.error (.repoNotFound config.Owner config.Repo), st1)
      else if resp.status ≠ 200 then (.error (.accessRepository resp.status), st1)
      else
        let st2 : State :=
          if st1.directoryChecked then st1
          else
            { directoryChecked := true,
              trace := (ensureDirectoryExists h config st1).2.trace ++ [.setDirectoryChecked] }
        let url := contentsURL config remotePath
        if h.badURL url then (.error .createRequest, st2)
        else
          let st3 := st2.emit (.putImage url imgData config.Branch)
          let resp := h.reply st3.trace
          if resp.err then (.error .sendRequest, st3)
          else if resp.status ≠ 201 then (.error (.apiError resp.status), st3)
          else
            match resp.downloadURL with
            | none => (.error .parseResponse, st3)
            | some downloadURL =>
              if config.UseCDN then (.ok (cdnURL config remotePath), st3)
              else (.ok downloadURL, st3)

/-! ## `processMarkdownFile`, lines 316-407 -/

/-- The errors of `processMarkdownFile`. -/
inductive ProcessError
  /-- Line 320: "error reading file". -/
  | readFile (filePath : List Nat)
  /-- Lines 335 and 403: "error writing output file". -/
  | writeFile
deriving DecidableEq, Repr

/-- The struct `processResult` (lines 310-313), together with the bytes that
`ioutil.WriteFile` stored at `outputPath`. -/
structure processResult where
  outputPath : List Nat
  imageCount : Nat
  output : List Nat
deriving DecidableEq, Repr

/-- Lines 396-398 (and 330-332): `baseName + "-processed" + ext` with
`ext := filepath.Ext(filePath)` and `baseName := strings.TrimSuffix(filePath, ext)`. -/
def outputFilePath (filePath : List Nat) : List Nat :=
  let ext := Ext filePath
  let baseName := filePath.take (filePath.length - ext.length)
  baseName ++ str "-processed" ++ ext

/-- Line 380: `fmt.Sprintf("![%s](%s)", imgAltText, newURL)`. -/
def newImgRef (imgAltText newURL : List Nat) : List Nat :=
  [33, 91] ++ imgAltText ++ [93, 40] ++ newURL ++ [41]

/-- The variables the loop of lines 345-393 updates. -/
structure LoopState where
  newContent : List Nat
  imageCount : Nat
  st : State

/-- One iteration of the loop of lines 345-393, for the match `m`. -/
def processMatch (h : Host) (filePath : List Nat) (config : GitHubConfig)
    (content : List Nat) (m : Match) (ls : LoopState) : LoopState :=
  let imgAltText := slice content m.altTextStart m.altTextEnd
  let imgURL := slice content m.urlStart m.urlEnd
  if isRemote imgURL then ls
  else
    let imgPath := h.imgPath filePath imgURL
    if h.notExist imgPath then ls
    else
      match uploadImageToGitHub h imgPath config ls.st with
      | (.error _, st1) => { ls with st := st1 }
      | (.ok newURL, st1) =>
        let oldImgRef := slice content m.lo m.hi
        { newContent := bytesReplace1 ls.newContent oldImgRef (newImgRef imgAltText newURL),
          imageCount := ls.imageCount + 1,
          st := st1 }

/-- The loop of lines 345-393 over the matches in the order it visits them
(last match first). -/
def processLoop (h : Host) (filePath : List Nat) (config : GitHubConfig)
    (content : List Nat) : List Match → LoopState → LoopState
  | [], ls => ls
  | m :: ms, ls =>
    processLoop h filePath config content ms (processMatch h filePath config content m ls)

/-- The function `processMarkdownFile`. -/
def processMarkdownFile (h : Host) (filePath : List Nat) (config : GitHubConfig) (st : State) :
    Except ProcessError processResult × State :=
  match h.readFile filePath with
  | none => (.error (.readFile filePath), st)
  | some content =>
    let matches_ := scan content
    if matches_.length = 0 then
      if h.writeFails (outputFilePath filePath) then (.error .writeFile, st)
      else (.ok { outputPath := outputFilePath filePath, imageCount := 0, output := content }, st)
    else
      let ls := processLoop h filePath config content matches_.reverse
        { newContent := content, imageCount := 0, st := st }
      if h.writeFails (outputFilePath filePath) then (.error .writeFile, ls.st)
      else
        (.ok { outputPath := outputFilePath filePath, imageCount := ls.imageCount,
               output := ls.newContent }, ls.st)

/-! ## Derived notions used to state the properties -/

/-- What the loop of lines 345-393 does with one reference. -/
inductive RefOutcome
  /-- Line 355: the target begins with `http://` or `https://`. -/
  | remote
  /-- Line 369: the file is reported missing. -/
  | missing
  /-- Line 376: `uploadImageToGitHub` returned an error. -/
  | failed (e : UploadError)
  /-- Lines 379-392: uploaded, the reference is rewritten and counted. -/
  | uploaded (newURL : List Nat)
deriving DecidableEq, Repr

/-- The reference is Local and its upload succeeded. -/
def RefOutcome.isUploaded : RefOutcome → Bool
  | .uploaded _ => true
  | _ => false

/-- The reference is Local and was skipped (file missing or upload failed). -/
def RefOutcome.isSkipped : RefOutcome → Bool
  | .missing => true
  | .failed _ => true
  | _ => false

/-- The outcome of every reference, in the order the loop visits them, starting
from process state `st`: the same tests and the same calls of
`uploadImageToGitHub` as `processMatch`, without the rewriting. -/
def outcomes (h : Host) (filePath : List Nat) (config : GitHubConfig) (content : List Nat) :
    List Match → State → List RefOutcome
  | [], _ => []
  | m :: ms, st =>
    let imgURL := slice content m.urlStart m.urlEnd
    if isRemote imgURL then .remote :: outcomes h filePath config content ms st
    else if h.notExist (h.imgPath filePath imgURL) then
      .missing :: outcomes h filePath config content ms st
    else
      match uploadImageToGitHub h (h.imgPath filePath imgURL) config st with
      | (.error e, st1) => .failed e :: outcomes h filePath config content ms st1
      | (.ok newURL, st1) => .uploaded newURL :: outcomes h filePath config content ms st1

/-- A sequence of calls of `uploadImageToGitHub` in one process, each with its
own path and configuration. -/
def uploadAll (h : Host) : List (List Nat × GitHubConfig) → State → State
  | [], st => st
  | (imgPath, config) :: calls, st =>
    uploadAll h calls (uploadImageToGitHub h imgPath config st).2

/-- The event is the write `directoryChecked = true`. -/
def Event.isFlagWrite : Event → Bool
  | .setDirectoryChecked => true
  | _ => false

/-- The event is the request of `ensureDirectoryExists`. -/
def Event.isBootstrap : Event → Bool
  | .putSentinel _ _ => true
  | _ => false

/-- The event is a create/update (`PUT`) request. -/
def Event.isPut : Event → Bool
  | .putSentinel _ _ => true
  | .putImage _ _ _ => true
  | _ => false

/-- The address of an uploaded reference. -/
def RefOutcome.address : RefOutcome → Option (List Nat)
  | .uploaded newURL => some newURL
  | _ => none

/-- The step of lines 379-391 as a function of the outcome: an uploaded
reference has the first occurrence of its text replaced, any other leaves
`newContent` as it is. -/
def applyOutcome (content newContent : List Nat) (p : Match × RefOutcome) : List Nat :=
  match p.2 with
  | .uploaded newURL =>
    bytesReplace1 newContent (slice content p.1.lo p.1.hi)
      (newImgRef (slice content p.1.altTextStart p.1.altTextEnd) newURL)
  | _ => newContent

/-- The references of a document in document order, each with what a run of
`processMarkdownFile` from state `st` does to it. -/
def outcomesInOrder (h : Host) (filePath : List Nat) (config : GitHubConfig)
    (content : List Nat) (st : State) : List (Match × RefOutcome) :=
  (scan content).zip (outcomes h filePath config content (scan content).reverse st).reverse

/-- The text that stands for the reference `m` in the rewritten document:
`![alt](address)` for an uploaded reference, the bytes of its span otherwise
(`s` is the document from byte offset `off` on). -/
def spanText (s : List Nat) (off : Nat) (m : Match) : RefOutcome → List Nat
  | .uploaded newURL =>
    newImgRef (slice s (m.altTextStart - off) (m.altTextEnd - off)) newURL
  | _ => slice s (m.lo - off) (m.hi - off)

/-- The input `s` (the document from byte offset `off` on) with the span of every
uploaded reference replaced by `![alt](address)`, and every other byte kept. -/
def rewriteSpans (s : List Nat) (off : Nat) : List (Match × RefOutcome) → List Nat
  | [] => s
  | (m, o) :: rest =>
    s.take (m.lo - off) ++ (spanText s off m o ++ rewriteSpans (s.drop (m.hi - off)) m.hi rest)

/-- The part of an address that the pattern reads back as the target of
`![alt](address)`: the bytes before the first `)` of the address. -/
def readBack (address : List Nat) : List Nat := address.takeWhile (· ≠ 41)

/-- The rest of an address, from its first `)` on; empty when it has none. -/
def leftOver (address : List Nat) : List Nat := address.dropWhile (· ≠ 41)

/-- The bytes hold `![`, the opening of an image reference. -/
def hasBang : List Nat → Bool
  | [] => false
  | c :: rest => (c == 33 && rest.head? == some 91) || hasBang rest

/-- The match `m'` of the output stands for the reference `p.1` of the input:
same alt text, and as target the old target if the reference was not uploaded;
if it was, `m'` starts where the text `![alt](address)` that replaced the
reference stands in the output, its target is the uploaded address as far as
its first `)`, line 354 classifies it as Remote, and the loop step of any later
run passes over it without an upload. -/
def RescannedAs (content out : List Nat) (p : Match × RefOutcome) (m' : Match) : Prop :=
  slice out m'.altTextStart m'.altTextEnd
    = slice content p.1.altTextStart p.1.altTextEnd ∧
  match p.2 with
  | .uploaded newURL =>
    slice out m'.lo
        (m'.lo + (newImgRef (slice content p.1.altTextStart p.1.altTextEnd) newURL).length)
      = newImgRef (slice content p.1.altTextStart p.1.altTextEnd) newURL ∧
    slice out m'.urlStart m'.urlEnd = readBack newURL ∧
    isRemote (slice out m'.urlStart m'.urlEnd) = true ∧
    ∀ (h : Host) (filePath : List Nat) (config : GitHubConfig) (ls : LoopState),
      processMatch h filePath config out m' ls = ls
  | _ => slice out m'.urlStart m'.urlEnd = slice content p.1.urlStart p.1.urlEnd

/-- A host whose repository check always answers 404.  The document `d.md` is
`![a](x.png)`, the image `x.png` exists beside it and can be read. -/
def notFoundHost : Host where
  readFile := fun p =>
    if p = str "d.md" then some (str "![a](x.png)")
    else if p = str "x.png" then some [137, 80, 78, 71]
    else none
  notExist := fun p => p != str "x.png"
  writeFails := fun _ => false
  imgPath := fun _ imgURL => imgURL
  join := fun dir name => dir ++ [47] ++ name
  badURL := fun _ => false
  now := fun tr => 1730000000000000000 + tr.length
  reply := fun _ => { err := false, status := 404, downloadURL := none }

/-- A configuration with CDN addresses. -/
def cdnConfig : GitHubConfig where
  Token := str "t"
  Owner := str "o"
  Repo := str "r"
  Branch := str "main"
  ImagesPath := str "images"
  UseCDN := true

/-- The host always answers the way the code hopes for (200 to the repository
check, 201 to every `PUT`, a download address), the image `x.png` exists, and
the clock reads the same value at every call. -/
def frozenClockHost : Host where
  readFile := fun p => if p = str "x.png" then some [137, 80, 78, 71] else none
  notExist := fun p => p != str "x.png"
  writeFails := fun _ => false
  imgPath := fun _ imgURL => imgURL
  join := fun dir name => dir ++ [47] ++ name
  badURL := fun _ => false
  now := fun _ => 1730000000000000000
  reply := fun tr =>
    match tr.getLast? with
    | some (.getRepo _) => { err := false, status := 200, downloadURL := none }
    | _ => { err := false, status := 201, downloadURL := some (str "https://raw.example/o/r/x") }

/-- A host that always answers the way the code hopes for (200 to the
repository check, 201 to every `PUT`, a download address).  The document `d.md`
holds `doc`, the paths in `images` are the image files that exist, documents and
images sit in the working directory, and the clock advances with every event. -/
def okHost (doc : List Nat) (images : List (List Nat)) : Host where
  readFile := fun p =>
    if p = str "d.md" then some doc
    else if p ∈ images then some [137, 80, 78, 71]
    else none
  notExist := fun p => !(images.contains p)
  writeFails := fun _ => false
  imgPath := fun _ imgURL => imgURL
  join := fun dir name => dir ++ [47] ++ name
  badURL := fun _ => false
  now := fun tr => 1730000000000000000 + tr.length
  reply := fun tr =>
    match tr.getLast? with
    | some (.getRepo _) => { err := false, status := 200, downloadURL := none }
    | _ => { err := false, status := 201, downloadURL := some (str "https://raw.example/o/r/x") }

/-- The host `okHost`, except that the answer to a `PUT` reports `address` as
the download address (the empty string when the field `download_url` is absent
or null). -/
def reportHost (address doc : List Nat) (images : List (List Nat)) : Host :=
  { okHost doc images with
    reply := fun tr =>
      match tr.getLast? with
      | some (.getRepo _) => { err := false, status := 200, downloadURL := none }
      | _ => { err := false, status := 201, downloadURL := some address } }

/-- A configuration with CDN addresses and a branch name that holds parentheses. -/
def parenConfig : GitHubConfig where
  Token := str "t"
  Owner := str "o"
  Repo := str "r"
  Branch := str "fix(1)"
  ImagesPath := str "images"
  UseCDN := true

/-- A configuration that uses the address the host reports. -/
def rawConfig : GitHubConfig where
  Token := str "t"
  Owner := str "o"
  Repo := str "r"
  Branch := str "main"
  ImagesPath := str "images"
  UseCDN := false

/-- The number a decimal numeral stands for. -/
def decimalValue (digits : List Nat) : Nat :=
  digits.foldl (fun acc b => 10 * acc + (b - 48)) 0

/-! ## The scanner: what a match is -/

theorem lazyTarget_some {s : List Nat} {t : Nat} (h : lazyTarget s = some t) :
    ∃ tgt rest, s = tgt ++ 41 :: rest ∧ tgt.length = t ∧ 10 ∉ tgt ∧ 41 ∉ tgt := by
  induction s generalizing t with
  | nil => simp [lazyTarget] at h
  | cons c rest ih =>
    unfold lazyTarget at h
    by_cases h41 : c = 41
    · simp only [h41, if_true, Option.some.injEq] at h
      exact ⟨[], rest, by simp [h41], by simpa using h, by simp, by simp⟩
    · by_cases h10 : c = 10
      · simp [h10] at h
      · simp only [h41, h10, if_false, Option.map_eq_some'] at h
        obtain ⟨t', ht', rfl⟩ := h
        obtain ⟨tgt, r, hs, hl, hn10, hn41⟩ := ih ht'
        refine ⟨c :: tgt, r, by simp [hs], by simp [hl], ?_, ?_⟩
        · simp only [List.mem_cons, not_or]; exact ⟨fun e => h10 e.symm, hn10⟩
        · simp only [List.mem_cons, not_or]; exact ⟨fun e => h41 e.symm, hn41⟩

theorem lazyTarget_of_append {tgt : List Nat} (rest : List Nat) (h10 : 10 ∉ tgt)
    (h41 : 41 ∉ tgt) : lazyTarget (tgt ++ 41 :: rest) = some tgt.length := by
  induction tgt with
  | nil => simp [lazyTarget]
  | cons c tgt ih =>
    simp only [List.mem_cons, not_or] at h10 h41
    have hc10 : c ≠ 10 := fun e => h10.1 e.symm
    have hc41 : c ≠ 41 := fun e => h41.1 e.symm
    simp [lazyTarget, hc10, hc41, ih h10.2 h41.2]

theorem lazyTarget_isSome_of_append {tgt : List Nat} (rest : List Nat) (h10 : 10 ∉ tgt) :
    (lazyTarget (tgt ++ 41 :: rest)).isSome = true := by
  induction tgt with
  | nil => simp [lazyTarget]
  | cons c tgt ih =>
    simp only [List.mem_cons, not_or] at h10
    have hc10 : c ≠ 10 := fun e => h10.1 e.symm
    by_cases hc41 : c = 41
    · simp [lazyTarget, hc41]
    · have := ih h10.2
      simp only [List.cons_append, lazyTarget, hc41, hc10, if_false, Option.isSome_map']
      exact this

theorem closeAlt_some {s : List Nat} {t : Nat} (h : closeAlt s = some t) :
    ∃ r, s = 93 :: 40 :: r ∧ lazyTarget r = some t := by
  unfold closeAlt at h
  split at h
  · exact ⟨_, rfl, h⟩
  · simp at h

theorem lazyAlt_some {s : List Nat} {a t : Nat} (h : lazyAlt s = some (a, t)) :
    ∃ alt tgt rest, s = alt ++ 93 :: 40 :: (tgt ++ 41 :: rest) ∧ alt.length = a ∧
      tgt.length = t ∧ 10 ∉ alt ∧ 10 ∉ tgt ∧ 41 ∉ tgt := by
  induction s generalizing a t with
  | nil => simp [lazyAlt] at h
  | cons c rest ih =>
    rw [lazyAlt] at h
    split at h
    · rename_i t' hstop
      simp only [Option.some.injEq, Prod.mk.injEq] at h
      obtain ⟨rfl, rfl⟩ := h
      obtain ⟨r, hs, hr⟩ := closeAlt_some hstop
      obtain ⟨tgt, r', hs', hl, hn10, hn41⟩ := lazyTarget_some hr
      exact ⟨[], tgt, r', by simp [hs, hs'], rfl, hl, by simp, hn10, hn41⟩
    · by_cases h10 : c = 10
      · simp [h10] at h
      · simp only [h10, if_false, Option.map_eq_some', Prod.mk.injEq, Prod.exists] at h
        obtain ⟨a', t', hrec, rfl, rfl⟩ := h
        obtain ⟨alt, tgt, r, hs, hla, hlt, hn, hn10, hn41⟩ := ih hrec
        refine ⟨c :: alt, tgt, r, by simp [hs], by simp [hla], hlt, ?_, hn10, hn41⟩
        simp only [List.mem_cons, not_or]; exact ⟨fun e => h10 e.symm, hn⟩

theorem lazyAlt_isSome_of_append {alt tgt : List Nat} (rest : List Nat) (ha : 10 ∉ alt)
    (ht : 10 ∉ tgt) : (lazyAlt (alt ++ 93 :: 40 :: (tgt ++ 41 :: rest))).isSome = true := by
  induction alt with
  | nil =>
    have h := lazyTarget_isSome_of_append rest ht
    obtain ⟨t, ht'⟩ := Option.isSome_iff_exists.mp h
    simp [lazyAlt, closeAlt, ht']
  | cons c alt ih =>
    simp only [List.mem_cons, not_or] at ha
    have hc10 : c ≠ 10 := fun e => ha.1 e.symm
    have hrec := ih ha.2
    rw [List.cons_append, lazyAlt]
    split
    · rfl
    · simp only [hc10, if_false, Option.isSome_map']
      exact hrec

theorem matchHere_some {s : List Nat} {a t : Nat} (h : matchHere s = some (a, t)) :
    ∃ alt tgt rest, s = newImgRef alt tgt ++ rest ∧ alt.length = a ∧ tgt.length = t ∧
      10 ∉ alt ∧ 10 ∉ tgt ∧ 41 ∉ tgt := by
  unfold matchHere at h
  split at h
  · obtain ⟨alt, tgt, r, hs, hla, hlt, hn, hn10, hn41⟩ := lazyAlt_some h
    exact ⟨alt, tgt, r, by simp [newImgRef, hs], hla, hlt, hn, hn10, hn41⟩
  · simp at h

theorem matchHere_isSome_of_append {alt tgt : List Nat} (rest : List Nat) (ha : 10 ∉ alt)
    (ht : 10 ∉ tgt) : (matchHere (newImgRef alt tgt ++ rest)).isSome = true := by
  have h := lazyAlt_isSome_of_append rest ha ht
  simpa [newImgRef, matchHere] using h

theorem lazyAlt_le_of_append {alt tgt : List Nat} (rest : List Nat) (ha : 10 ∉ alt)
    (ht : 10 ∉ tgt) {a t : Nat}
    (h : lazyAlt (alt ++ 93 :: 40 :: (tgt ++ 41 :: rest)) = some (a, t)) : a ≤ alt.length := by
  induction alt generalizing a with
  | nil =>
    obtain ⟨t0, ht0⟩ := Option.isSome_iff_exists.mp (lazyTarget_isSome_of_append rest ht)
    simp [lazyAlt, closeAlt, ht0] at h
    omega
  | cons c alt ih =>
    simp only [List.mem_cons, not_or] at ha
    rw [List.cons_append, lazyAlt] at h
    split at h
    · simp only [Option.some.injEq, Prod.mk.injEq] at h
      omega
    · have hc10 : c ≠ 10 := fun e => ha.1 e.symm
      simp only [hc10, if_false, Option.map_eq_some', Prod.mk.injEq, Prod.exists] at h
      obtain ⟨a0, t0, hrec, rfl, rfl⟩ := h
      have := ih ha.2 hrec
      simp only [List.length_cons]
      omega

/-- The matcher against the meaning of the pattern. `matchHere` succeeds exactly
on the inputs that begin with `![alt](tgt)` for line-free `alt` and `tgt`, and
its captures are those of the leftmost-first match: the alt text is the shortest
one for which the rest of the pattern can still match, and the target runs to
the first `)`. -/
theorem matchHere_eq_some_iff (s : List Nat) (a t : Nat) :
    matchHere s = some (a, t) ↔
      ∃ alt tgt rest, s = newImgRef alt tgt ++ rest ∧ alt.length = a ∧ tgt.length = t ∧
        10 ∉ alt ∧ 10 ∉ tgt ∧ 41 ∉ tgt ∧
        ∀ alt0 tgt0 rest0, s = newImgRef alt0 tgt0 ++ rest0 → 10 ∉ alt0 → 10 ∉ tgt0 →
          alt.length ≤ alt0.length := by
  constructor
  · intro h
    obtain ⟨alt, tgt, rest, hs, hla, hlt, ha, ht, ht'⟩ := matchHere_some h
    refine ⟨alt, tgt, rest, hs, hla, hlt, ha, ht, ht', ?_⟩
    intro alt0 tgt0 rest0 hs0 ha0 ht0
    have h' : lazyAlt (alt0 ++ 93 :: 40 :: (tgt0 ++ 41 :: rest0)) = some (a, t) := by
      rw [hs0] at h
      simpa [newImgRef, matchHere] using h
    have := lazyAlt_le_of_append rest0 ha0 ht0 h'
    omega
  · rintro ⟨alt, tgt, rest, hs, hla, hlt, ha, ht, ht', hmin⟩
    have hsome : (matchHere s).isSome = true := by
      rw [hs]; exact matchHere_isSome_of_append rest ha ht
    obtain ⟨⟨a', t'⟩, h'⟩ := Option.isSome_iff_exists.mp hsome
    obtain ⟨alt', tgt', rest', hs', hla', hlt', ha', ht1, ht1'⟩ := matchHere_some h'
    have hle := hmin alt' tgt' rest' hs' ha' ht1
    have hge : a' ≤ alt.length := by
      have h'' : lazyAlt (alt ++ 93 :: 40 :: (tgt ++ 41 :: rest)) = some (a', t') := by
        rw [hs] at h'
        simpa [newImgRef, matchHere] using h'
      exact lazyAlt_le_of_append rest ha ht h''
    have hlen : alt'.length = alt.length := by omega
    have heq : alt' ++ (93 :: 40 :: (tgt' ++ 41 :: rest')) = alt ++ (93 :: 40 :: (tgt ++ 41 :: rest)) := by
      have := hs'.symm.trans hs
      simpa [newImgRef] using this
    obtain ⟨hal, htl⟩ := List.append_inj heq hlen
    simp only [List.cons.injEq, true_and] at htl
    have htt : tgt'.length = tgt.length := by
      have h1 := lazyTarget_of_append rest' ht1 ht1'
      have h2 := lazyTarget_of_append rest ht ht'
      rw [htl, h2] at h1
      simpa using h1.symm
    rw [h']
    simp only [Option.some.injEq, Prod.mk.injEq]
    omega

/-! ## The scanner: the list of matches -/

theorem scanAux_mem (s : List Nat) (off skip : Nat) (m : Match)
    (hm : m ∈ scanAux s off skip) :
    ∃ k a t, skip ≤ k ∧ m = mkMatch (off + k) a t ∧ matchHere (s.drop k) = some (a, t) := by
  induction s generalizing off skip with
  | nil => simp [scanAux] at hm
  | cons c rest ih =>
    cases skip with
    | succ skip =>
      rw [scanAux] at hm
      obtain ⟨k, a, t, hk, rfl, hmh⟩ := ih _ _ hm
      exact ⟨k + 1, a, t, by omega, by rw [show off + (k + 1) = off + 1 + k by omega], by simpa using hmh⟩
    | zero =>
      rw [scanAux] at hm
      split at hm
      · rename_i a t hmh
        rcases List.mem_cons.mp hm with rfl | hm
        · exact ⟨0, a, t, le_refl _, rfl, by simpa using hmh⟩
        · obtain ⟨k, a', t', _, rfl, hmh'⟩ := ih _ _ hm
          exact ⟨k + 1, a', t', by omega, by rw [show off + (k + 1) = off + 1 + k by omega],
            by simpa using hmh'⟩
      · obtain ⟨k, a', t', _, rfl, hmh'⟩ := ih _ _ hm
        exact ⟨k + 1, a', t', by omega, by rw [show off + (k + 1) = off + 1 + k by omega],
          by simpa using hmh'⟩

theorem scanAux_pairwise (s : List Nat) (off skip : Nat) :
    (scanAux s off skip).Pairwise (fun m1 m2 => m1.hi ≤ m2.lo) := by
  induction s generalizing off skip with
  | nil => simp [scanAux]
  | cons c rest ih =>
    cases skip with
    | succ skip => rw [scanAux]; exact ih _ _
    | zero =>
      rw [scanAux]
      split
      · rename_i a t hmh
        refine List.Pairwise.cons ?_ (ih _ _)
        intro m hm
        obtain ⟨k, a', t', hk, rfl, _⟩ := scanAux_mem _ _ _ _ hm
        simp only [mkMatch]
        omega
      · exact ih _ _

/-- Every match the scanner reports is an occurrence of `![alt](tgt)` in the
content, with its six indices at the delimiters of that occurrence. -/
theorem scan_mem {content : List Nat} {m : Match} (hm : m ∈ scan content) :
    ∃ pre alt tgt post, content = pre ++ (newImgRef alt tgt ++ post) ∧
      m = mkMatch pre.length alt.length tgt.length ∧ 10 ∉ alt ∧ 10 ∉ tgt ∧ 41 ∉ tgt := by
  obtain ⟨k, a, t, _, hmk, hmh⟩ := scanAux_mem _ _ _ _ hm
  obtain ⟨alt, tgt, rest, hs, rfl, rfl, ha, ht, ht'⟩ := matchHere_some hmh
  have hk : k ≤ content.length := by
    by_contra hlt
    rw [List.drop_eq_nil_of_le (by omega)] at hs
    simp [newImgRef] at hs
  refine ⟨content.take k, alt, tgt, rest, ?_, ?_, ha, ht, ht'⟩
  · rw [← hs, List.take_append_drop]
  · rw [hmk, List.length_take, Nat.min_eq_left hk, Nat.zero_add]

theorem slice_append_left (pre x post : List Nat) :
    slice (pre ++ (x ++ post)) pre.length (pre.length + x.length) = x := by
  simp [slice]

theorem slice_newImgRef_alt (pre alt tgt post : List Nat) :
    slice (pre ++ (newImgRef alt tgt ++ post)) (pre.length + 2) (pre.length + 2 + alt.length)
      = alt := by
  have h : pre ++ (newImgRef alt tgt ++ post)
      = (pre ++ [33, 91]) ++ (alt ++ ([93, 40] ++ tgt ++ [41] ++ post)) := by
    simp [newImgRef]
  rw [h]
  have := slice_append_left (pre ++ [33, 91]) alt ([93, 40] ++ tgt ++ [41] ++ post)
  simpa using this

theorem slice_newImgRef_url (pre alt tgt post : List Nat) :
    slice (pre ++ (newImgRef alt tgt ++ post)) (pre.length + alt.length + 4)
      (pre.length + alt.length + 4 + tgt.length) = tgt := by
  have h : pre ++ (newImgRef alt tgt ++ post)
      = (pre ++ [33, 91] ++ alt ++ [93, 40]) ++ (tgt ++ ([41] ++ post)) := by
    simp [newImgRef]
  rw [h]
  have := slice_append_left (pre ++ [33, 91] ++ alt ++ [93, 40]) tgt ([41] ++ post)
  simpa [Nat.add_assoc] using this

theorem length_newImgRef (alt tgt : List Nat) :
    (newImgRef alt tgt).length = alt.length + tgt.length + 5 := by
  simp [newImgRef]; omega

theorem slice_newImgRef_span (pre alt tgt post : List Nat) :
    slice (pre ++ (newImgRef alt tgt ++ post)) pre.length
      (pre.length + alt.length + tgt.length + 5) = newImgRef alt tgt := by
  have := slice_append_left pre (newImgRef alt tgt) post
  rw [length_newImgRef] at this
  simpa [Nat.add_assoc] using this

/-- C9. For every document content, each reference the scanner produces has a
span inside the content, its captures lie inside the span in the order alt text,
target, and the bytes of the span are exactly `![` + alt text + `](` + target +
`)`, where alt text and target are the bytes of the content at the recorded
capture offsets; and the spans are pairwise non-overlapping and strictly ordered
by start offset. -/
theorem scan_spans_wellformed (content : List Nat) :
    (∀ m ∈ scan content,
        m.lo < m.hi ∧ m.hi ≤ content.length ∧
        m.lo ≤ m.altTextStart ∧ m.altTextStart ≤ m.altTextEnd ∧ m.altTextEnd ≤ m.urlStart ∧
        m.urlStart ≤ m.urlEnd ∧ m.urlEnd ≤ m.hi ∧
        slice content m.lo m.hi =
          [33, 91] ++ slice content m.altTextStart m.altTextEnd ++ [93, 40]
            ++ slice content m.urlStart m.urlEnd ++ [41]) ∧
    (scan content).Pairwise (fun m1 m2 => m1.lo < m2.lo ∧ m1.hi ≤ m2.lo) := by
  constructor
  · intro m hm
    obtain ⟨pre, alt, tgt, post, hc, rfl, _, _, _⟩ := scan_mem hm
    refine ⟨?_, ?_, ?_, ?_, ?_, ?_, ?_, ?_⟩
    · simp only [mkMatch]; omega
    · simp only [mkMatch, hc, List.length_append, length_newImgRef]; omega
    · simp only [mkMatch]; omega
    · simp only [mkMatch]; omega
    · simp only [mkMatch]; omega
    · simp only [mkMatch]; omega
    · simp only [mkMatch]; omega
    · simp only [mkMatch]
      rw [hc, slice_newImgRef_span, slice_newImgRef_alt, slice_newImgRef_url]
      rfl
  · have hp := scanAux_pairwise content 0 0
    have hall : ∀ m ∈ scan content, m.lo < m.hi := by
      intro m hm
      obtain ⟨pre, alt, tgt, post, _, rfl, _, _, _⟩ := scan_mem hm
      simp only [mkMatch]; omega
    refine List.Pairwise.imp_of_mem ?_ hp
    intro m1 m2 h1 _ h12
    have := hall m1 h1
    omega

/-! ## Documents without references -/

/-- C4. For every readable document in which the scanner finds no image
reference (and whose output file can be written), `processMarkdownFile` writes
the input bytes unchanged, reports `imageCount = 0`, and leaves the process
state as it was: no request is sent, so nothing is uploaded. -/
theorem processMarkdownFile_no_references (h : Host) (filePath : List Nat)
    (config : GitHubConfig) (st : State) (content : List Nat)
    (hread : h.readFile filePath = some content) (hscan : scan content = [])
    (hwrite : h.writeFails (outputFilePath filePath) = false) :
    processMarkdownFile h filePath config st =
      (.ok { outputPath := outputFilePath filePath, imageCount := 0, output := content }, st) := by
  simp [processMarkdownFile, hread, hscan, hwrite]

/-- C4, witness: a document without image references. -/
theorem processMarkdownFile_no_references_witness :
    scan (str "# Title\nno image here, [a link](x.png)\n") = [] ∧
    processMarkdownFile (okHost (str "# Title\nno image here, [a link](x.png)\n") [str "x.png"])
        (str "d.md") cdnConfig State.init =
      (.ok { outputPath := outputFilePath (str "d.md"), imageCount := 0,
             output := str "# Title\nno image here, [a link](x.png)\n" }, State.init) :=
  ⟨by decide,
    processMarkdownFile_no_references
      (okHost (str "# Title\nno image here, [a link](x.png)\n") [str "x.png"])
      (str "d.md") cdnConfig State.init (str "# Title\nno image here, [a link](x.png)\n")
      (by decide) (by decide) (by decide)⟩

/-! ## The counter of the loop -/

theorem processLoop_append (h : Host) (filePath : List Nat) (config : GitHubConfig)
    (content : List Nat) (l1 l2 : List Match) (ls : LoopState) :
    processLoop h filePath config content (l1 ++ l2) ls =
      processLoop h filePath config content l2 (processLoop h filePath config content l1 ls) := by
  induction l1 generalizing ls with
  | nil => rfl
  | cons m ms ih => simp [processLoop, ih]

theorem processMatch_remote (h : Host) (filePath : List Nat) (config : GitHubConfig)
    (content : List Nat) (m : Match) (ls : LoopState)
    (hr : isRemote (slice content m.urlStart m.urlEnd) = true) :
    processMatch h filePath config content m ls = ls := by
  simp [processMatch, hr]

theorem processMatch_missing (h : Host) (filePath : List Nat) (config : GitHubConfig)
    (content : List Nat) (m : Match) (ls : LoopState)
    (hr : isRemote (slice content m.urlStart m.urlEnd) = false)
    (hn : h.notExist (h.imgPath filePath (slice content m.urlStart m.urlEnd)) = true) :
    processMatch h filePath config content m ls = ls := by
  simp [processMatch, hr, hn]

theorem processMatch_failed (h : Host) (filePath : List Nat) (config : GitHubConfig)
    (content : List Nat) (m : Match) (ls : LoopState) (e : UploadError) (st1 : State)
    (hr : isRemote (slice content m.urlStart m.urlEnd) = false)
    (hn : h.notExist (h.imgPath filePath (slice content m.urlStart m.urlEnd)) = false)
    (hup : uploadImageToGitHub h (h.imgPath filePath (slice content m.urlStart m.urlEnd))
      config ls.st = (.error e, st1)) :
    processMatch h filePath config content m ls = { ls with st := st1 } := by
  simp [processMatch, hr, hn, hup]

theorem processMatch_uploaded (h : Host) (filePath : List Nat) (config : GitHubConfig)
    (content : List Nat) (m : Match) (ls : LoopState) (u : List Nat) (st1 : State)
    (hr : isRemote (slice content m.urlStart m.urlEnd) = false)
    (hn : h.notExist (h.imgPath filePath (slice content m.urlStart m.urlEnd)) = false)
    (hup : uploadImageToGitHub h (h.imgPath filePath (slice content m.urlStart m.urlEnd))
      config ls.st = (.ok u, st1)) :
    processMatch h filePath config content m ls =
      { newContent :=
          bytesReplace1 ls.newContent (slice content m.lo m.hi)
            (newImgRef (slice content m.altTextStart m.altTextEnd) u),
        imageCount := ls.imageCount + 1,
        st := st1 } := by
  simp [processMatch, hr, hn, hup]

theorem processLoop_count (h : Host) (filePath : List Nat) (config : GitHubConfig)
    (content : List Nat) (ms : List Match) (ls : LoopState) :
    (processLoop h filePath config content ms ls).imageCount =
      ls.imageCount + (outcomes h filePath config content ms ls.st).countP RefOutcome.isUploaded ∧
    (outcomes h filePath config content ms ls.st).countP RefOutcome.isUploaded
      + (outcomes h filePath config content ms ls.st).countP RefOutcome.isSkipped
      = ms.countP (fun m => !isRemote (slice content m.urlStart m.urlEnd)) := by
  induction ms generalizing ls with
  | nil => simp [processLoop, outcomes]
  | cons m ms ih =>
    have hi := ih (processMatch h filePath config content m ls)
    rw [processLoop, outcomes]
    cases hr : isRemote (slice content m.urlStart m.urlEnd) with
    | true =>
      rw [processMatch_remote _ _ _ _ _ _ hr] at hi ⊢
      simp [hr, RefOutcome.isUploaded, RefOutcome.isSkipped, hi.1, hi.2]
    | false =>
      cases hn : h.notExist (h.imgPath filePath (slice content m.urlStart m.urlEnd)) with
      | true =>
        rw [processMatch_missing _ _ _ _ _ _ hr hn] at hi ⊢
        simp [hr, RefOutcome.isUploaded, RefOutcome.isSkipped, hi.1]
        omega
      | false =>
        rcases hup : uploadImageToGitHub h (h.imgPath filePath
          (slice content m.urlStart m.urlEnd)) config ls.st with ⟨res, st1⟩
        cases res with
        | error e =>
          rw [processMatch_failed _ _ _ _ _ _ e st1 hr hn hup] at hi ⊢
          simp [hr, RefOutcome.isUploaded, RefOutcome.isSkipped, hi.1]
          have h2 := hi.2
          simp at h2
          omega
        | ok u =>
          rw [processMatch_uploaded _ _ _ _ _ _ u st1 hr hn hup] at hi ⊢
          simp [hr, RefOutcome.isUploaded, RefOutcome.isSkipped, hi.1]
          have h2 := hi.2
          simp at h2
          omega

/-- C6. For every document that can be read and whose output can be written,
`processMarkdownFile` returns a result (never an error), whatever the number of
Local references whose file is missing or whose upload fails; its `imageCount`
is the number of references that are Local, whose file existed and whose upload
succeeded, which is the number of Local references less one for each that was
skipped. -/
theorem processMarkdownFile_success_and_count (h : Host) (filePath : List Nat)
    (config : GitHubConfig) (st : State) (content : List Nat)
    (hread : h.readFile filePath = some content)
    (hwrite : h.writeFails (outputFilePath filePath) = false) :
    ∃ r, (processMarkdownFile h filePath config st).1 = .ok r ∧
      r.imageCount =
        (outcomes h filePath config content (scan content).reverse st).countP
          RefOutcome.isUploaded ∧
      r.imageCount +
        (outcomes h filePath config content (scan content).reverse st).countP
          RefOutcome.isSkipped
        = (scan content).countP (fun m => !isRemote (slice content m.urlStart m.urlEnd)) := by
  have hc := processLoop_count h filePath config content (scan content).reverse
    { newContent := content, imageCount := 0, st := st }
  simp only [Nat.zero_add, List.countP_reverse] at hc
  by_cases hz : (scan content).length = 0
  · have hnil : scan content = [] := List.length_eq_zero.mp hz
    refine ⟨{ outputPath := outputFilePath filePath, imageCount := 0, output := content }, ?_, ?_⟩
    · simp [processMarkdownFile, hread, hnil, hwrite]
    · simp [hnil, outcomes]
  · refine ⟨{ outputPath := outputFilePath filePath,
               imageCount := (processLoop h filePath config content (scan content).reverse
                 { newContent := content, imageCount := 0, st := st }).imageCount,
               output := (processLoop h filePath config content (scan content).reverse
                 { newContent := content, imageCount := 0, st := st }).newContent }, ?_, ?_, ?_⟩
    · simp [processMarkdownFile, hread, hz, hwrite]
    · exact hc.1
    · show (processLoop h filePath config content (scan content).reverse
        { newContent := content, imageCount := 0, st := st }).imageCount + _ = _
      rw [hc.1]; exact hc.2

/-- C6, witness: three references, one Local with a missing file, one Local that
is uploaded, one Remote. -/
theorem processMarkdownFile_success_and_count_witness :
    ∃ r, (processMarkdownFile
        (okHost (str "![m](gone.png) ![a](img/x.png) ![b](http://host/y.png)") [str "img/x.png"])
        (str "d.md") cdnConfig State.init).1 = .ok r ∧
      r.imageCount =
        (outcomes
          (okHost (str "![m](gone.png) ![a](img/x.png) ![b](http://host/y.png)") [str "img/x.png"])
          (str "d.md") cdnConfig (str "![m](gone.png) ![a](img/x.png) ![b](http://host/y.png)")
          (scan (str "![m](gone.png) ![a](img/x.png) ![b](http://host/y.png)")).reverse
          State.init).countP RefOutcome.isUploaded ∧
      r.imageCount +
        (outcomes
          (okHost (str "![m](gone.png) ![a](img/x.png) ![b](http://host/y.png)") [str "img/x.png"])
          (str "d.md") cdnConfig (str "![m](gone.png) ![a](img/x.png) ![b](http://host/y.png)")
          (scan (str "![m](gone.png) ![a](img/x.png) ![b](http://host/y.png)")).reverse
          State.init).countP RefOutcome.isSkipped
        = (scan (str "![m](gone.png) ![a](img/x.png) ![b](http://host/y.png)")).countP
            (fun m => !isRemote
              (slice (str "![m](gone.png) ![a](img/x.png) ![b](http://host/y.png)")
                m.urlStart m.urlEnd)) :=
  processMarkdownFile_success_and_count
    (okHost (str "![m](gone.png) ![a](img/x.png) ![b](http://host/y.png)") [str "img/x.png"])
    (str "d.md") cdnConfig State.init
    (str "![m](gone.png) ![a](img/x.png) ![b](http://host/y.png)") (by decide) (by decide)

/-! ## The flag `directoryChecked` -/

@[simp] theorem State.emit_directoryChecked (st : State) (e : Event) :
    (st.emit e).directoryChecked = st.directoryChecked := rfl

@[simp] theorem State.emit_trace (st : State) (e : Event) :
    (st.emit e).trace = st.trace ++ [e] := rfl

/-- One call of `ensureDirectoryExists` never writes the flag and sends at most
its one request, which is the only `PUT` it makes. -/
theorem ensureDirectoryExists_counts (h : Host) (config : GitHubConfig) (st : State) :
    (ensureDirectoryExists h config st).2.trace.countP Event.isFlagWrite
      = st.trace.countP Event.isFlagWrite ∧
    (ensureDirectoryExists h config st).2.trace.countP Event.isBootstrap
      ≤ st.trace.countP Event.isBootstrap + 1 := by
  unfold ensureDirectoryExists
  simp only []
  split_ifs <;>
    simp [List.countP_append, Event.isFlagWrite, Event.isBootstrap]

/-- One call of `uploadImageToGitHub`: either the flag keeps its value and the
call neither writes it nor bootstraps, or the flag was clear, is set by exactly
one write, and at most one bootstrap request is sent. -/
theorem uploadImageToGitHub_flag (h : Host) (imgPath : List Nat) (config : GitHubConfig)
    (st : State) :
    ((uploadImageToGitHub h imgPath config st).2.directoryChecked = st.directoryChecked ∧
      (uploadImageToGitHub h imgPath config st).2.trace.countP Event.isFlagWrite
        = st.trace.countP Event.isFlagWrite ∧
      (uploadImageToGitHub h imgPath config st).2.trace.countP Event.isBootstrap
        = st.trace.countP Event.isBootstrap) ∨
    (st.directoryChecked = false ∧
      (uploadImageToGitHub h imgPath config st).2.directoryChecked = true ∧
      (uploadImageToGitHub h imgPath config st).2.trace.countP Event.isFlagWrite
        = st.trace.countP Event.isFlagWrite + 1 ∧
      (uploadImageToGitHub h imgPath config st).2.trace.countP Event.isBootstrap
        ≤ st.trace.countP Event.isBootstrap + 1) := by
  have hE := ensureDirectoryExists_counts h config (st.emit (.getRepo (repoURL config)))
  simp [List.countP_append, Event.isFlagWrite, Event.isBootstrap] at hE
  rcases hres : uploadImageToGitHub h imgPath config st with ⟨res, st1⟩
  simp only []
  unfold uploadImageToGitHub at hres
  split at hres
  · simp only [Prod.mk.injEq] at hres
    obtain ⟨-, rfl⟩ := hres
    simp
  · simp only [] at hres
    generalize hst2 : (if (st.emit (.getRepo (repoURL config))).directoryChecked = true
        then st.emit (.getRepo (repoURL config))
        else ({ directoryChecked := true,
                trace := (ensureDirectoryExists h config
                  (st.emit (.getRepo (repoURL config)))).2.trace ++ [.setDirectoryChecked] } : State))
      = st2 at hres
    have key : (st2.directoryChecked = st.directoryChecked ∧
        st2.trace.countP Event.isFlagWrite = st.trace.countP Event.isFlagWrite ∧
        st2.trace.countP Event.isBootstrap = st.trace.countP Event.isBootstrap) ∨
      (st.directoryChecked = false ∧ st2.directoryChecked = true ∧
        st2.trace.countP Event.isFlagWrite = st.trace.countP Event.isFlagWrite + 1 ∧
        st2.trace.countP Event.isBootstrap ≤ st.trace.countP Event.isBootstrap + 1) := by
      subst hst2
      cases hdc : st.directoryChecked
      · right
        simp [hdc, List.countP_append, Event.isFlagWrite, Event.isBootstrap]
        omega
      · left
        simp [hdc, List.countP_append, Event.isFlagWrite, Event.isBootstrap]
    clear hst2 hE
    split_ifs at hres <;> try split at hres
    all_goals
      simp only [Prod.mk.injEq] at hres
      obtain ⟨-, rfl⟩ := hres
      first
        | exact key
        | simp [List.countP_append, Event.isFlagWrite, Event.isBootstrap]; done
        | simpa [List.countP_append, Event.isFlagWrite, Event.isBootstrap] using key

theorem uploadAll_append (h : Host) (c1 c2 : List (List Nat × GitHubConfig)) (st : State) :
    uploadAll h (c1 ++ c2) st = uploadAll h c2 (uploadAll h c1 st) := by
  induction c1 generalizing st with
  | nil => rfl
  | cons c cs ih => obtain ⟨p, cfg⟩ := c; simp [uploadAll, ih]

theorem uploadAll_flag (h : Host) (calls : List (List Nat × GitHubConfig)) (st : State) :
    (st.directoryChecked = true →
      (uploadAll h calls st).directoryChecked = true ∧
      (uploadAll h calls st).trace.countP Event.isFlagWrite = st.trace.countP Event.isFlagWrite ∧
      (uploadAll h calls st).trace.countP Event.isBootstrap = st.trace.countP Event.isBootstrap) ∧
    (st.directoryChecked = false →
      (uploadAll h calls st).trace.countP Event.isFlagWrite
        = st.trace.countP Event.isFlagWrite
          + (if (uploadAll h calls st).directoryChecked then 1 else 0) ∧
      (uploadAll h calls st).trace.countP Event.isBootstrap
        ≤ st.trace.countP Event.isBootstrap
          + (if (uploadAll h calls st).directoryChecked then 1 else 0)) := by
  induction calls generalizing st with
  | nil =>
    constructor
    · intro _; exact ⟨‹_›, rfl, rfl⟩
    · intro hf; simp [uploadAll, hf]
  | cons c cs ih =>
    obtain ⟨p, cfg⟩ := c
    have hi := ih (uploadImageToGitHub h p cfg st).2
    rw [uploadAll]
    rcases uploadImageToGitHub_flag h p cfg st with ⟨hd, hw, hb⟩ | ⟨hf, hd, hw, hb⟩
    · constructor
      · intro ht
        have := hi.1 (hd.trans ht)
        exact ⟨this.1, this.2.1.trans hw, this.2.2.trans hb⟩
      · intro hf
        have := hi.2 (hd.trans hf)
        rw [hw, hb] at this
        exact this
    · constructor
      · intro ht; rw [hf] at ht; cases ht
      · intro _
        have := hi.1 hd
        rw [this.1, this.2.1, this.2.2]
        simp only [if_true]
        exact ⟨hw, hb⟩

/-- C10. Over any sequence of `uploadImageToGitHub` calls in one process, whatever
the host answers: `directoryChecked` starts false; it is written at most once,
and exactly when it goes from false to true (the number of writes is 1 if the
flag is set and 0 if it is not); once set it stays set through any further
calls; and the request of `ensureDirectoryExists` is sent at most once. -/
theorem directoryChecked_written_at_most_once (h : Host)
    (calls later : List (List Nat × GitHubConfig)) :
    State.init.directoryChecked = false ∧
    (uploadAll h calls State.init).trace.countP Event.isFlagWrite
      = (if (uploadAll h calls State.init).directoryChecked then 1 else 0) ∧
    (uploadAll h calls State.init).trace.countP Event.isFlagWrite ≤ 1 ∧
    (uploadAll h calls State.init).trace.countP Event.isBootstrap ≤ 1 ∧
    ((uploadAll h calls State.init).directoryChecked = true →
      (uploadAll h (calls ++ later) State.init).directoryChecked = true ∧
      (uploadAll h (calls ++ later) State.init).trace.countP Event.isFlagWrite = 1) := by
  have h0 := (uploadAll_flag h calls State.init).2 rfl
  have hinit : State.init.trace = [] := rfl
  simp only [hinit, List.countP_nil, Nat.zero_add] at h0
  refine ⟨rfl, h0.1, ?_, ?_, ?_⟩
  · rw [h0.1]; split <;> omega
  · refine le_trans h0.2 ?_; split <;> omega
  · intro ht
    rw [uploadAll_append]
    have h1 := (uploadAll_flag h later (uploadAll h calls State.init)).1 ht
    refine ⟨h1.1, ?_⟩
    rw [h1.2.1, h0.1]
    simp [ht]

/-! ## A repository that is not found -/

theorem uploadImageToGitHub_not_found (h : Host) (imgPath : List Nat) (config : GitHubConfig)
    (st : State)
    (h404 : ∀ tr url, (h.reply (tr ++ [.getRepo url])).err = false ∧
      (h.reply (tr ++ [.getRepo url])).status = 404) :
    uploadImageToGitHub h imgPath config st = (.error .readImage, st) ∨
    uploadImageToGitHub h imgPath config st = (.error .createCheckRequest, st) ∨
    (h.readFile imgPath ≠ none ∧ h.badURL (repoURL config) = false ∧
      uploadImageToGitHub h imgPath config st =
        (.error (.repoNotFound config.Owner config.Repo), st.emit (.getRepo (repoURL config)))) := by
  have h1 := h404 st.trace (repoURL config)
  unfold uploadImageToGitHub
  cases hrd : h.readFile imgPath with
  | none => left; rfl
  | some imgData =>
    right
    cases hb : h.badURL (repoURL config) with
    | true => left; simp
    | false => right; simp [h1.1, h1.2]

theorem processLoop_not_found (h : Host) (filePath : List Nat) (config : GitHubConfig)
    (content : List Nat) (ms : List Match) (ls : LoopState)
    (h404 : ∀ tr url, (h.reply (tr ++ [.getRepo url])).err = false ∧
      (h.reply (tr ++ [.getRepo url])).status = 404) :
    (processLoop h filePath config content ms ls).newContent = ls.newContent ∧
    (processLoop h filePath config content ms ls).imageCount = ls.imageCount ∧
    (processLoop h filePath config content ms ls).st.trace.countP Event.isPut
      = ls.st.trace.countP Event.isPut := by
  induction ms generalizing ls with
  | nil => simp [processLoop]
  | cons m ms ih =>
    have hi := ih (processMatch h filePath config content m ls)
    rw [processLoop]
    cases hr : isRemote (slice content m.urlStart m.urlEnd) with
    | true => rw [processMatch_remote _ _ _ _ _ _ hr] at hi ⊢; exact hi
    | false =>
      cases hn : h.notExist (h.imgPath filePath (slice content m.urlStart m.urlEnd)) with
      | true => rw [processMatch_missing _ _ _ _ _ _ hr hn] at hi ⊢; exact hi
      | false =>
        rcases uploadImageToGitHub_not_found h (h.imgPath filePath
          (slice content m.urlStart m.urlEnd)) config ls.st h404 with hu | hu | ⟨_, _, hu⟩
        all_goals
          rw [processMatch_failed _ _ _ _ _ _ _ _ hr hn hu] at hi ⊢
          simpa [List.countP_append, Event.isPut] using hi

/-- C5, as the code has it. Whenever the repository check answers 404, every call
of `uploadImageToGitHub` that gets as far as the check returns the error naming
`Owner/Repo` as not found, having sent the check and nothing else; and
`processMarkdownFile` does not abort: it takes each such error as the failure of
one reference, writes the document unchanged, returns a result with
`imageCount = 0`, and no create/update (`PUT`) request is sent. -/
theorem repo_not_found_is_skipped_per_reference (h : Host) (filePath : List Nat)
    (config : GitHubConfig) (st : State) (content : List Nat)
    (hread : h.readFile filePath = some content)
    (hwrite : h.writeFails (outputFilePath filePath) = false)
    (h404 : ∀ tr url, (h.reply (tr ++ [.getRepo url])).err = false ∧
      (h.reply (tr ++ [.getRepo url])).status = 404) :
    (∀ imgPath st0, h.readFile imgPath ≠ none → h.badURL (repoURL config) = false →
      uploadImageToGitHub h imgPath config st0 =
        (.error (.repoNotFound config.Owner config.Repo),
          st0.emit (.getRepo (repoURL config)))) ∧
    (processMarkdownFile h filePath config st).1 =
      .ok { outputPath := outputFilePath filePath, imageCount := 0, output := content } ∧
    (processMarkdownFile h filePath config st).2.trace.countP Event.isPut
      = st.trace.countP Event.isPut := by
  refine ⟨?_, ?_⟩
  · intro imgPath st0 hrd hb
    rcases uploadImageToGitHub_not_found h imgPath config st0 h404 with hu | hu | ⟨_, _, hu⟩
    · exfalso
      unfold uploadImageToGitHub at hu
      cases hrd' : h.readFile imgPath with
      | none => exact hrd hrd'
      | some d =>
        have h1 := h404 st0.trace (repoURL config)
        simp [hrd', hb, h1.1, h1.2] at hu
    · exfalso
      unfold uploadImageToGitHub at hu
      cases hrd' : h.readFile imgPath with
      | none => exact hrd hrd'
      | some d =>
        have h1 := h404 st0.trace (repoURL config)
        simp [hrd', hb, h1.1, h1.2] at hu
    · exact hu
  · have hl := processLoop_not_found h filePath config content (scan content).reverse
      { newContent := content, imageCount := 0, st := st } h404
    by_cases hz : (scan content).length = 0
    · simp [processMarkdownFile, hread, hz, hwrite]
    · have h1 := hl.1
      have h2 := hl.2.1
      have h3 := hl.2.2
      simp only [] at h1 h2 h3
      simp [processMarkdownFile, hread, hz, hwrite, h1, h2, h3]

/-- C5, counterexample. The document `d.md` is `![a](x.png)`, the image exists,
and the repository check answers 404: `uploadImageToGitHub` returns the error
naming `o/r` as not found, yet `processMarkdownFile` returns a result (no error)
with `imageCount = 0` and the document unchanged. -/
theorem repo_not_found_run_succeeds :
    uploadImageToGitHub notFoundHost (str "x.png") cdnConfig State.init =
      (.error (.repoNotFound (str "o") (str "r")),
        { directoryChecked := false, trace := [.getRepo (str "https://api.github.com/repos/o/r")] }) ∧
    processMarkdownFile notFoundHost (str "d.md") cdnConfig State.init =
      (.ok { outputPath := str "d-processed.md", imageCount := 0, output := str "![a](x.png)" },
        { directoryChecked := false, trace := [.getRepo (str "https://api.github.com/repos/o/r")] }) :=
  ⟨rfl, rfl⟩

/-- C5, witness: the host `notFoundHost` and the document `d.md`. -/
theorem repo_not_found_is_skipped_per_reference_witness :
    notFoundHost.readFile (str "d.md") = some (str "![a](x.png)") ∧
    (scan (str "![a](x.png)")).length = 1 ∧
    (processMarkdownFile notFoundHost (str "d.md") cdnConfig State.init).1 =
      .ok { outputPath := outputFilePath (str "d.md"), imageCount := 0,
            output := str "![a](x.png)" } ∧
    (processMarkdownFile notFoundHost (str "d.md") cdnConfig State.init).2.trace.countP
      Event.isPut = State.init.trace.countP Event.isPut :=
  ⟨by decide, by decide,
    (repo_not_found_is_skipped_per_reference notFoundHost (str "d.md") cdnConfig State.init
      (str "![a](x.png)") (by decide) (by decide) (fun _ _ => ⟨rfl, rfl⟩)).2⟩

/-! ## Remote object names -/

theorem decimalAux_value (fuel n : Nat) (acc : List Nat) (hf : n < fuel) :
    (decimalAux fuel n acc).foldl (fun a b => 10 * a + (b - 48)) 0
      = acc.foldl (fun a b => 10 * a + (b - 48)) n := by
  induction fuel generalizing n acc with
  | zero => omega
  | succ fuel ih =>
    rw [decimalAux]
    split
    · simp
    · rw [ih (n / 10) _ (by omega)]
      simp only [List.foldl_cons]
      congr 1
      omega

theorem decimalValue_decimal (n : Nat) : decimalValue (decimal n) = n := by
  unfold decimalValue decimal
  rw [decimalAux_value _ _ _ (by omega)]
  rfl

theorem decimalAux_digits (fuel n : Nat) (acc : List Nat) :
    ∀ b ∈ decimalAux fuel n acc, b ∈ acc ∨ (48 ≤ b ∧ b ≤ 57) := by
  induction fuel generalizing n acc with
  | zero => intro b hb; exact Or.inl hb
  | succ fuel ih =>
    intro b hb
    rw [decimalAux] at hb
    split at hb
    · rcases List.mem_cons.mp hb with rfl | hb
      · right; omega
      · exact Or.inl hb
    · rcases ih _ _ b hb with hb | hb
      · rcases List.mem_cons.mp hb with rfl | hb
        · right; omega
        · exact Or.inl hb
      · exact Or.inr hb

theorem decimal_digits (n : Nat) : ∀ b ∈ decimal n, 48 ≤ b ∧ b ≤ 57 := by
  intro b hb
  rcases decimalAux_digits _ _ _ b hb with h | h
  · simp at h
  · exact h

theorem fmtInt_bytes (t : Int) : ∀ b ∈ fmtInt t, b = 45 ∨ (48 ≤ b ∧ b ≤ 57) := by
  intro b hb
  unfold fmtInt at hb
  split at hb
  · rcases List.mem_cons.mp hb with rfl | hb
    · exact Or.inl rfl
    · exact Or.inr (decimal_digits _ b hb)
  · exact Or.inr (decimal_digits _ b hb)

theorem decimal_injective {n m : Nat} (h : decimal n = decimal m) : n = m := by
  have := congrArg decimalValue h
  simpa [decimalValue_decimal] using this

theorem fmtInt_injective {t1 t2 : Int} (h : fmtInt t1 = fmtInt t2) : t1 = t2 := by
  unfold fmtInt at h
  split at h <;> split at h
  · have := decimal_injective (List.cons.inj h).2
    omega
  · have hm : 45 ∈ decimal t2.natAbs := by rw [← h]; exact List.mem_cons_self _ _
    have := decimal_digits _ _ hm
    omega
  · have hm : 45 ∈ decimal t1.natAbs := by rw [h]; exact List.mem_cons_self _ _
    have := decimal_digits _ _ hm
    omega
  · have := decimal_injective h
    omega

theorem extLoop_shape (l suffix : List Nat) :
    extLoop l suffix = [] ∨ ∃ e, extLoop l suffix = 46 :: e := by
  induction l generalizing suffix with
  | nil => left; rfl
  | cons c l ih =>
    rw [extLoop]
    split
    · left; rfl
    · split
      · rename_i hc; right; exact ⟨suffix, by rw [hc]⟩
      · exact ih _

theorem append_ext_injective {a a' e e' : List Nat} (ha : 46 ∉ a) (ha' : 46 ∉ a')
    (he : e = [] ∨ ∃ x, e = 46 :: x) (he' : e' = [] ∨ ∃ x, e' = 46 :: x)
    (h : a ++ e = a' ++ e') : a = a' ∧ e = e' := by
  induction a generalizing a' with
  | nil =>
    cases a' with
    | nil => exact ⟨rfl, by simpa using h⟩
    | cons c a' =>
      exfalso
      rcases he with rfl | ⟨x, rfl⟩
      · simp at h
      · simp only [List.nil_append, List.cons_append, List.cons.injEq] at h
        exact ha' (by rw [← h.1]; exact List.mem_cons_self _ _)
  | cons c a ih =>
    cases a' with
    | nil =>
      exfalso
      rcases he' with rfl | ⟨x, rfl⟩
      · simp at h
      · simp only [List.nil_append, List.cons_append, List.cons.injEq] at h
        exact ha (by rw [h.1]; exact List.mem_cons_self _ _)
    | cons c' a' =>
      simp only [List.cons_append, List.cons.injEq] at h
      simp only [List.mem_cons, not_or] at ha ha'
      obtain ⟨h1, h2⟩ := ih ha.2 ha'.2 h.2
      exact ⟨by rw [h.1, h1], h2⟩

/-- The name of the remote object. `uploadImageToGitHub` sends every image to the
object named `imgName timestamp (Ext imgPath)` (the decimal clock reading
followed by the extension of the local path) in `config.ImagesPath`, and that
name determines both the clock reading and the extension: two uploads get the
same name exactly when they read the same clock value and their paths have the
same extension. -/
theorem imgName_injective_in_timestamp :
    (∀ (h : Host) (imgPath : List Nat) (config : GitHubConfig) (st st1 : State) (u : List Nat),
      uploadImageToGitHub h imgPath config st = (.ok u, st1) →
      ∃ imgData, st1.trace.getLast? = some (.putImage
        (contentsURL config
          (h.join config.ImagesPath (imgName (h.now st.trace) (Ext imgPath))))
        imgData config.Branch)) ∧
    (∀ (t1 t2 : Int) (p1 p2 : List Nat),
      imgName t1 (Ext p1) = imgName t2 (Ext p2) ↔ (t1 = t2 ∧ Ext p1 = Ext p2)) ∧
    (∀ (t1 t2 : Int) (p : List Nat),
      imgName t1 (Ext p) ≠ imgName t2 (Ext p) ↔ t1 ≠ t2) := by
  have hinj : ∀ (t1 t2 : Int) (p1 p2 : List Nat),
      imgName t1 (Ext p1) = imgName t2 (Ext p2) ↔ (t1 = t2 ∧ Ext p1 = Ext p2) := by
    intro t1 t2 p1 p2
    constructor
    · intro h
      have hno : ∀ t : Int, 46 ∉ fmtInt t := by
        intro t hm
        rcases fmtInt_bytes t 46 hm with h | h <;> omega
      obtain ⟨h1, h2⟩ := append_ext_injective (hno t1) (hno t2) (extLoop_shape _ _)
        (extLoop_shape _ _) h
      exact ⟨fmtInt_injective h1, h2⟩
    · rintro ⟨rfl, h⟩; rw [imgName, imgName, h]
  refine ⟨?_, hinj, ?_⟩
  · intro h imgPath config st st1 u hres
    unfold uploadImageToGitHub at hres
    split at hres
    · simp at hres
    · rename_i imgData _
      refine ⟨imgData, ?_⟩
      simp only [] at hres
      generalize (if (st.emit (.getRepo (repoURL config))).directoryChecked = true
        then st.emit (.getRepo (repoURL config))
        else ({ directoryChecked := true,
                trace := (ensureDirectoryExists h config
                  (st.emit (.getRepo (repoURL config)))).2.trace ++ [.setDirectoryChecked] } : State))
        = st2 at hres
      split_ifs at hres <;> try split at hres
      all_goals
        simp only [Prod.mk.injEq] at hres
        obtain ⟨hr, rfl⟩ := hres
        first
          | (exfalso; cases hr; done)
          | simp
  · intro t1 t2 p
    rw [Ne, hinj]
    simp

/-- C8, the code at the failing input. Two uploads of the same file `x.png` in
one run, both successful, with `time.Now().UnixNano()` reading
1730000000000000000 at both calls: lines 418-420 build the same name twice, so
the two images are sent to the same remote object and get the same address,
although line 417 says the name generated is unique. -/
theorem same_clock_reading_same_remote_name :
    uploadAll frozenClockHost [(str "x.png", cdnConfig), (str "x.png", cdnConfig)] State.init =
      { directoryChecked := true,
        trace :=
          [.getRepo (str "https://api.github.com/repos/o/r"),
           .putSentinel (str "https://api.github.com/repos/o/r/contents/images/.gitkeep")
             (str "main"),
           .setDirectoryChecked,
           .putImage
             (str "https://api.github.com/repos/o/r/contents/images/1730000000000000000.png")
             [137, 80, 78, 71] (str "main"),
           .getRepo (str "https://api.github.com/repos/o/r"),
           .putImage
             (str "https://api.github.com/repos/o/r/contents/images/1730000000000000000.png")
             [137, 80, 78, 71] (str "main")] } ∧
    (uploadImageToGitHub frozenClockHost (str "x.png") cdnConfig State.init).1 =
      .ok (str "https://cdn.jsdelivr.net/gh/o/r@main/images/1730000000000000000.png") ∧
    (uploadImageToGitHub frozenClockHost (str "x.png") cdnConfig
        (uploadImageToGitHub frozenClockHost (str "x.png") cdnConfig State.init).2).1 =
      .ok (str "https://cdn.jsdelivr.net/gh/o/r@main/images/1730000000000000000.png") :=
  ⟨by decide, rfl, rfl⟩

/-! ## Rewriting the first reference -/

theorem scanAux_head {s : List Nat} {off : Nat} {m : Match} {ms : List Match}
    (hs : scanAux s off 0 = m :: ms) :
    ∃ k a t, m = mkMatch (off + k) a t ∧ matchHere (s.drop k) = some (a, t) ∧
      ∀ j < k, matchHere (s.drop j) = none := by
  induction s generalizing off with
  | nil => simp [scanAux] at hs
  | cons c rest ih =>
    rw [scanAux] at hs
    split at hs
    · rename_i a t hmh
      simp only [List.cons.injEq] at hs
      exact ⟨0, a, t, hs.1.symm, by simpa using hmh, by intro j hj; omega⟩
    · rename_i hmh
      obtain ⟨k, a, t, hm, hk, hlt⟩ := ih hs
      refine ⟨k + 1, a, t, by rw [hm]; congr 1; omega, by simpa using hk, ?_⟩
      intro j hj
      cases j with
      | zero => simpa using hmh
      | succ j => simpa using hlt j (by omega)

theorem bytesReplace1_at (pre old new post : List Nat)
    (hfirst : ∀ j < pre.length, old.isPrefixOf ((pre ++ (old ++ post)).drop j) = false) :
    bytesReplace1 (pre ++ (old ++ post)) old new = pre ++ (new ++ post) := by
  induction pre with
  | nil =>
    cases hol : old ++ post with
    | nil =>
      have ho : old = [] := (List.append_eq_nil.mp hol).1
      have hp : post = [] := (List.append_eq_nil.mp hol).2
      simp [bytesReplace1, ho, hp]
    | cons c rest =>
      have hpre : old.isPrefixOf (c :: rest) = true := by
        rw [← hol]; simp
      simp only [List.nil_append, hol, bytesReplace1, hpre, if_true]
      rw [← hol]; simp
  | cons c pre ih =>
    have h0 := hfirst 0 (by simp)
    simp only [List.drop_zero] at h0
    have hrec : ∀ j < pre.length, old.isPrefixOf ((pre ++ (old ++ post)).drop j) = false := by
      intro j hj
      have := hfirst (j + 1) (by simp; omega)
      simpa using this
    simp only [List.cons_append] at h0 ⊢
    rw [bytesReplace1, h0]
    simp [ih hrec]

theorem matchHere_of_isPrefixOf {alt tgt s : List Nat} (ha : 10 ∉ alt) (ht : 10 ∉ tgt)
    (hp : (newImgRef alt tgt).isPrefixOf s = true) : (matchHere s).isSome = true := by
  obtain ⟨rest, rfl⟩ := List.isPrefixOf_iff_prefix.mp hp
  exact matchHere_isSome_of_append rest ha ht

/-- The first match of a scan: the content splits around it, and its text does
not occur at any earlier offset. -/
theorem scan_head {content : List Nat} {m : Match} {ms : List Match}
    (hs : scan content = m :: ms) :
    ∃ pre alt tgt post, content = pre ++ (newImgRef alt tgt ++ post) ∧
      m = mkMatch pre.length alt.length tgt.length ∧
      ∀ j < pre.length, (newImgRef alt tgt).isPrefixOf (content.drop j) = false := by
  obtain ⟨k, a, t, hm, hmh, hlt⟩ := scanAux_head hs
  obtain ⟨alt, tgt, rest, hsplit, rfl, rfl, ha, ht, _⟩ := matchHere_some hmh
  have hk : k ≤ content.length := by
    by_contra hlt'
    rw [List.drop_eq_nil_of_le (by omega)] at hsplit
    simp [newImgRef] at hsplit
  refine ⟨content.take k, alt, tgt, rest, ?_, ?_, ?_⟩
  · rw [← hsplit, List.take_append_drop]
  · rw [hm, List.length_take, Nat.min_eq_left hk, Nat.zero_add]
  · intro j hj
    rw [List.length_take, Nat.min_eq_left hk] at hj
    by_contra hne
    have hp : (newImgRef alt tgt).isPrefixOf (content.drop j) = true := by
      simpa using hne
    have := matchHere_of_isPrefixOf ha ht hp
    rw [hlt j hj] at this
    simp at this

theorem processLoop_all_remote (h : Host) (filePath : List Nat) (config : GitHubConfig)
    (content : List Nat) (ms : List Match) (ls : LoopState)
    (hrem : ∀ m ∈ ms, isRemote (slice content m.urlStart m.urlEnd) = true) :
    processLoop h filePath config content ms ls = ls := by
  induction ms generalizing ls with
  | nil => rfl
  | cons m ms ih =>
    rw [processLoop, processMatch_remote _ _ _ _ _ _ (hrem m (List.mem_cons_self _ _))]
    exact ih ls (fun m' hm' => hrem m' (List.mem_cons_of_mem _ hm'))

theorem take_drop_of_split (pre x post : List Nat) :
    (pre ++ (x ++ post)).take pre.length = pre ∧
    (pre ++ (x ++ post)).drop (pre.length + x.length) = post := by
  constructor
  · simp
  · rw [← List.append_assoc, ← List.length_append]
    simp

/-- C1. For every document whose first image reference is Local, with a file
that exists and an upload that succeeds with address `u`, and all of whose other
references are Remote, `processMarkdownFile` (the document can be read and the
output written) writes the input with exactly the span of that first reference
replaced by `![alt](u)`, every byte before and after the span unchanged, and
reports `imageCount = 1`. -/
theorem first_local_reference_replaced (h : Host) (filePath : List Nat)
    (config : GitHubConfig) (st st1 : State) (content u : List Nat) (m : Match)
    (ms : List Match)
    (hread : h.readFile filePath = some content)
    (hwrite : h.writeFails (outputFilePath filePath) = false)
    (hscan : scan content = m :: ms)
    (hlocal : isRemote (slice content m.urlStart m.urlEnd) = false)
    (hexists : h.notExist (h.imgPath filePath (slice content m.urlStart m.urlEnd)) = false)
    (hup : uploadImageToGitHub h (h.imgPath filePath (slice content m.urlStart m.urlEnd))
      config st = (.ok u, st1))
    (hrest : ∀ m' ∈ ms, isRemote (slice content m'.urlStart m'.urlEnd) = true) :
    processMarkdownFile h filePath config st =
      (.ok { outputPath := outputFilePath filePath,
             imageCount := 1,
             output := content.take m.lo
               ++ newImgRef (slice content m.altTextStart m.altTextEnd) u
               ++ content.drop m.hi }, st1) := by
  obtain ⟨pre, alt, tgt, post, hc, hm, hfirst⟩ := scan_head hscan
  have hloop : processLoop h filePath config content (scan content).reverse
      { newContent := content, imageCount := 0, st := st } =
      { newContent := bytesReplace1 content (slice content m.lo m.hi)
          (newImgRef (slice content m.altTextStart m.altTextEnd) u),
        imageCount := 1, st := st1 } := by
    rw [hscan, List.reverse_cons, processLoop_append,
      processLoop_all_remote _ _ _ _ _ _ (fun m' hm' => hrest m' (List.mem_reverse.mp hm'))]
    simp only [processLoop]
    rw [processMatch_uploaded _ _ _ _ _ _ u st1 hlocal hexists hup]
  have hlen : ¬ (scan content).length = 0 := by rw [hscan]; simp
  simp only [processMarkdownFile, hread, hlen, if_false, hwrite, hloop]
  have hspan : slice content m.lo m.hi = newImgRef alt tgt := by
    rw [hm, hc]; simp only [mkMatch]; exact slice_newImgRef_span pre alt tgt post
  have halt : slice content m.altTextStart m.altTextEnd = alt := by
    rw [hm, hc]; simp only [mkMatch]; exact slice_newImgRef_alt pre alt tgt post
  have htd := take_drop_of_split pre (newImgRef alt tgt) post
  have hlo : m.lo = pre.length := by rw [hm]; rfl
  have hhi : m.hi = pre.length + (newImgRef alt tgt).length := by
    rw [hm, length_newImgRef]; simp only [mkMatch]; omega
  rw [hspan, halt, hlo, hhi]
  have hrep : bytesReplace1 content (newImgRef alt tgt) (newImgRef alt u)
      = pre ++ (newImgRef alt u ++ post) := by
    have := bytesReplace1_at pre (newImgRef alt tgt) (newImgRef alt u) post
      (by intro j hj; rw [← hc]; exact hfirst j hj)
    rw [← hc] at this
    exact this
  rw [hrep]
  have h1 : content.take pre.length = pre := by rw [hc]; exact htd.1
  have h2 : content.drop (pre.length + (newImgRef alt tgt).length) = post := by
    rw [hc]; exact htd.2
  rw [h1, h2, List.append_assoc]
  simp

/-- C1, witness: the document of the scenario, `img/x.png` present. -/
theorem first_local_reference_replaced_witness :
    scan (str "![a](img/x.png)\ntext\n![b](http://host/y.png)")
      = [mkMatch 0 1 9, mkMatch 21 1 17] ∧
    processMarkdownFile
        (okHost (str "![a](img/x.png)\ntext\n![b](http://host/y.png)") [str "img/x.png"])
        (str "d.md") cdnConfig State.init =
      (.ok { outputPath := str "d-processed.md",
             imageCount := 1,
             output := str ("![a](https://cdn.jsdelivr.net/gh/o/r@main/images/"
               ++ "1730000000000000000.png)\ntext\n![b](http://host/y.png)") },
        { directoryChecked := true,
          trace :=
            [.getRepo (str "https://api.github.com/repos/o/r"),
             .putSentinel (str "https://api.github.com/repos/o/r/contents/images/.gitkeep")
               (str "main"),
             .setDirectoryChecked,
             .putImage
               (str "https://api.github.com/repos/o/r/contents/images/1730000000000000000.png")
               [137, 80, 78, 71] (str "main")] }) :=
  ⟨by decide,
    first_local_reference_replaced
      (okHost (str "![a](img/x.png)\ntext\n![b](http://host/y.png)") [str "img/x.png"])
      (str "d.md") cdnConfig State.init _
      (str "![a](img/x.png)\ntext\n![b](http://host/y.png)")
      (str "https://cdn.jsdelivr.net/gh/o/r@main/images/1730000000000000000.png")
      (mkMatch 0 1 9) [mkMatch 21 1 17]
      (by decide) (by decide) (by decide) (by decide) (by decide) rfl (by decide)⟩

/-! ## Replacement by text, not by position -/

/-- C2, the code at the failing input. The document is
`![A](http://h/![a](p.png) ![a](p.png)` and `p.png` exists.  The scanner finds a
Remote reference at bytes 0-25 (its target `http://h/![a](p.png` holds the text
of the second reference) and a Local reference at bytes 26-37.  The Local one is
uploaded, and `bytes.Replace` rewrites the first occurrence of its text, which
lies inside the span of the Remote reference: the bytes of the Remote reference
change and the Local reference stays as it was. -/
theorem remote_span_overwritten :
    scan (str "![A](http://h/![a](p.png) ![a](p.png)") = [mkMatch 0 1 19, mkMatch 26 1 5] ∧
    isRemote (slice (str "![A](http://h/![a](p.png) ![a](p.png)") 5 24) = true ∧
    isRemote (slice (str "![A](http://h/![a](p.png) ![a](p.png)") 31 36) = false ∧
    (processMarkdownFile (okHost (str "![A](http://h/![a](p.png) ![a](p.png)") [str "p.png"])
        (str "d.md") cdnConfig State.init).1 =
      .ok { outputPath := str "d-processed.md",
            imageCount := 1,
            output := str ("![A](http://h/![a](https://cdn.jsdelivr.net/gh/o/r@main/images/"
              ++ "1730000000000000000.png) ![a](p.png)") } ∧
    slice (str ("![A](http://h/![a](https://cdn.jsdelivr.net/gh/o/r@main/images/"
              ++ "1730000000000000000.png) ![a](p.png)")) 0 25
      ≠ slice (str "![A](http://h/![a](p.png) ![a](p.png)") 0 25 :=
  ⟨by decide, by decide, by decide, rfl, by decide⟩

/-- C3, the code at the failing input. The document is
`![x![a](img.png) ![a](img.png)` and `img.png` exists.  The scanner finds two
Local references with different texts, at bytes 0-16 (alt text `x![a`) and at
bytes 17-30 (alt text `a`); both uploads succeed, the one for the second
reference first.  The text of the second reference occurs inside the span of the
first, so its replacement lands there; the text of the first reference is then
no longer found and nothing more is replaced.  The output holds one rewritten
reference, not two: the address of the second reference stands in the span of
the first, the second reference is unchanged, and `imageCount` is 2. -/
theorem two_local_references_one_rewritten :
    scan (str "![x![a](img.png) ![a](img.png)") = [mkMatch 0 4 7, mkMatch 17 1 7] ∧
    (uploadImageToGitHub (okHost (str "![x![a](img.png) ![a](img.png)") [str "img.png"])
        (str "img.png") cdnConfig State.init).1 =
      .ok (str "https://cdn.jsdelivr.net/gh/o/r@main/images/1730000000000000000.png") ∧
    (uploadImageToGitHub (okHost (str "![x![a](img.png) ![a](img.png)") [str "img.png"])
        (str "img.png") cdnConfig
        (uploadImageToGitHub (okHost (str "![x![a](img.png) ![a](img.png)") [str "img.png"])
          (str "img.png") cdnConfig State.init).2).1 =
      .ok (str "https://cdn.jsdelivr.net/gh/o/r@main/images/1730000000000000004.png") ∧
    (processMarkdownFile (okHost (str "![x![a](img.png) ![a](img.png)") [str "img.png"])
        (str "d.md") cdnConfig State.init).1 =
      .ok { outputPath := str "d-processed.md",
            imageCount := 2,
            output := str ("![x![a](https://cdn.jsdelivr.net/gh/o/r@main/images/"
              ++ "1730000000000000000.png) ![a](img.png)") } :=
  ⟨by decide, rfl, rfl, rfl⟩

/-! ## Matching in a rewritten document -/

theorem lazyTarget_none_stable {g X Y : List Nat} (hX : (lazyTarget X).isSome = true)
    (h : lazyTarget (g ++ X) = none) : lazyTarget (g ++ Y) = none := by
  induction g with
  | nil => rw [List.nil_append] at h; rw [h] at hX; simp at hX
  | cons c g ih =>
    rw [List.cons_append, lazyTarget] at h ⊢
    by_cases h41 : c = 41
    · simp [h41] at h
    · by_cases h10 : c = 10
      · simp [h10]
      · simp only [h41, h10, if_false, Option.map_eq_none'] at h ⊢
        exact ih h

theorem lazyAlt_none_stable {g X Y : List Nat} (hXa : (lazyAlt X).isSome = true)
    (hXt : (lazyTarget X).isSome = true) (hY : ∀ Y', Y ≠ 40 :: Y')
    (h : lazyAlt (g ++ X) = none) : lazyAlt (g ++ Y) = none := by
  induction g with
  | nil => rw [List.nil_append] at h; rw [h] at hXa; simp at hXa
  | cons c g ih =>
    rw [List.cons_append, lazyAlt] at h
    rw [List.cons_append, lazyAlt]
    split at h
    · simp at h
    · rename_i hclose
      have hcloseY : closeAlt (c :: (g ++ Y)) = none := by
        cases hcy : closeAlt (c :: (g ++ Y)) with
        | none => rfl
        | some t1 =>
          exfalso
          obtain ⟨r, hs, hr⟩ := closeAlt_some hcy
          simp only [List.cons.injEq] at hs
          obtain ⟨rfl, hs⟩ := hs
          cases g with
          | nil => exact hY r (by simpa using hs)
          | cons d g' =>
            simp only [List.cons_append, List.cons.injEq] at hs
            obtain ⟨rfl, rfl⟩ := hs
            have hnone : lazyTarget (g' ++ X) = none := by
              simpa [closeAlt] using hclose
            have := lazyTarget_none_stable (Y := Y) hXt hnone
            rw [this] at hr
            simp at hr
      rw [hcloseY]
      by_cases h10 : c = 10
      · simp [h10]
      · simp only [h10, if_false, Option.map_eq_none'] at h ⊢
        exact ih h

/-- Where the pattern does not match in front of a reference, it does not match
either when the text from the reference on is replaced by text that begins
with `!`. -/
theorem matchHere_none_stable {l alt tgt post Y' : List Nat} (hl : l ≠ [])
    (ha : 10 ∉ alt) (ht : 10 ∉ tgt)
    (h : matchHere (l ++ (newImgRef alt tgt ++ post)) = none) :
    matchHere (l ++ 33 :: Y') = none := by
  have hXa : (lazyAlt (newImgRef alt tgt ++ post)).isSome = true := by
    have := @lazyAlt_isSome_of_append (33 :: 91 :: alt) tgt post
      (by simp only [List.mem_cons, not_or]; exact ⟨by decide, by decide, ha⟩) ht
    simpa [newImgRef] using this
  have hXt : (lazyTarget (newImgRef alt tgt ++ post)).isSome = true := by
    have := @lazyTarget_isSome_of_append (33 :: 91 :: (alt ++ 93 :: 40 :: tgt)) post
      (by
        simp only [List.mem_cons, List.mem_append, not_or]
        exact ⟨by decide, by decide, ha, by decide, by decide, ht⟩)
    simpa [newImgRef] using this
  match l, hl with
  | [c], _ =>
    unfold matchHere
    split
    · rename_i rest heq
      simp at heq
    · rfl
  | c :: d :: g, _ =>
    simp only [List.cons_append] at h ⊢
    unfold matchHere at h ⊢
    split
    · rename_i rest heq
      simp only [List.cons.injEq] at heq
      obtain ⟨rfl, rfl, rfl⟩ := heq
      simp only [] at h
      exact lazyAlt_none_stable hXa hXt (by intro Y'' hy; simp at hy) h
    · rfl

theorem lazyAlt_replace_target {alt tgt post u post' : List Nat} {t' : Nat}
    (h : lazyAlt (alt ++ 93 :: 40 :: (tgt ++ 41 :: post)) = some (alt.length, tgt.length))
    (ha : 10 ∉ alt) (ht : 10 ∉ tgt) (hu : lazyTarget (u ++ 41 :: post') = some t') :
    lazyAlt (alt ++ 93 :: 40 :: (u ++ 41 :: post')) = some (alt.length, t') := by
  induction alt with
  | nil => simp [lazyAlt, closeAlt, hu]
  | cons c alt ih =>
    simp only [List.mem_cons, not_or] at ha
    rw [List.cons_append, lazyAlt] at h
    rw [List.cons_append, lazyAlt]
    split at h
    · simp at h
    · rename_i hclose
      have hc10 : c ≠ 10 := fun e => ha.1 e.symm
      simp only [hc10, if_false, Option.map_eq_some', Prod.mk.injEq, Prod.exists] at h
      obtain ⟨a0, t0, hrec, ha0, rfl⟩ := h
      have ha0' : a0 = alt.length := by simpa using ha0
      subst ha0'
      have hrec' := ih hrec ha.2
      have hcloseY : closeAlt (c :: (alt ++ 93 :: 40 :: (u ++ 41 :: post'))) = none := by
        cases hcy : closeAlt (c :: (alt ++ 93 :: 40 :: (u ++ 41 :: post'))) with
        | none => rfl
        | some t1 =>
          exfalso
          obtain ⟨r, hs, _⟩ := closeAlt_some hcy
          simp only [List.cons.injEq] at hs
          obtain ⟨rfl, hs⟩ := hs
          cases alt with
          | nil => simp at hs
          | cons d alt' =>
            simp only [List.cons_append, List.cons.injEq] at hs
            obtain ⟨rfl, _⟩ := hs
            have hsome := @lazyTarget_isSome_of_append (alt' ++ 93 :: 40 :: tgt) post
              (by
                simp only [List.mem_cons, not_or] at ha
                simp only [List.mem_append, List.mem_cons, not_or]
                exact ⟨ha.2.2, by decide, by decide, ht⟩)
            have hnone : lazyTarget (alt' ++ 93 :: 40 :: (tgt ++ 41 :: post)) = none := by
              simpa [closeAlt] using hclose
            simp [hnone] at hsome
      simp [hcloseY, hc10, hrec']

theorem isRemote_cdnURL (config : GitHubConfig) (remotePath : List Nat) :
    isRemote (cdnURL config remotePath) = true := by
  have hs : str "https://cdn.jsdelivr.net/gh/" = httpsScheme ++ str "cdn.jsdelivr.net/gh/" := by
    decide
  unfold isRemote hasPrefix cdnURL
  rw [hs]
  have : httpsScheme.isPrefixOf (httpsScheme ++ str "cdn.jsdelivr.net/gh/" ++ config.Owner ++ [47]
      ++ config.Repo ++ [64] ++ config.Branch ++ [47] ++ remotePath) = true := by
    rw [List.isPrefixOf_iff_prefix]
    simp only [List.append_assoc]
    exact List.prefix_append _ _
  rw [this]; simp

theorem uploadImageToGitHub_cdn {h : Host} {imgPath : List Nat} {config : GitHubConfig}
    {st st1 : State} {u : List Nat} (hcdn : config.UseCDN = true)
    (hres : uploadImageToGitHub h imgPath config st = (.ok u, st1)) :
    u = cdnURL config (h.join config.ImagesPath (imgName (h.now st.trace) (Ext imgPath))) := by
  unfold uploadImageToGitHub at hres
  split at hres
  · simp at hres
  · simp only [] at hres
    generalize (if (st.emit (.getRepo (repoURL config))).directoryChecked = true
      then st.emit (.getRepo (repoURL config))
      else ({ directoryChecked := true,
              trace := (ensureDirectoryExists h config
                (st.emit (.getRepo (repoURL config)))).2.trace ++ [.setDirectoryChecked] } : State))
      = st2 at hres
    split_ifs at hres <;> try split at hres
    all_goals
      simp only [Prod.mk.injEq] at hres
      obtain ⟨hr, -⟩ := hres
      first
        | (exfalso; cases hr; done)
        | (simp only [hcdn, if_true, Except.ok.injEq] at hr; exact hr.symm)

/-! ## The whole rewriting, by position -/

theorem scanAux_gap (g X : List Nat) (off : Nat)
    (hg : ∀ j < g.length, matchHere ((g ++ X).drop j) = none) :
    scanAux (g ++ X) off 0 = scanAux X (off + g.length) 0 := by
  induction g generalizing off with
  | nil => simp
  | cons c g ih =>
    have h0 := hg 0 (by simp)
    simp only [List.drop_zero, List.cons_append] at h0
    rw [List.cons_append, scanAux, h0]
    simp only []
    rw [ih (off + 1) (fun j hj => by simpa using hg (j + 1) (by simp; omega))]
    congr 1
    simp only [List.length_cons]
    omega

theorem scanAux_skip (l rest : List Nat) (off : Nat) :
    scanAux (l ++ rest) off l.length = scanAux rest (off + l.length) 0 := by
  induction l generalizing off with
  | nil => simp
  | cons c l ih =>
    rw [List.cons_append, List.length_cons, scanAux, ih]
    congr 1
    omega

theorem scanAux_match {alt tgt rest : List Nat} {a t : Nat} (off : Nat)
    (hla : alt.length = a) (hlt : tgt.length = t)
    (hmh : matchHere (newImgRef alt tgt ++ rest) = some (a, t)) :
    scanAux (newImgRef alt tgt ++ rest) off 0 =
      mkMatch off a t :: scanAux rest (off + (a + t + 5)) 0 := by
  have hsplit : newImgRef alt tgt ++ rest
      = 33 :: ((91 :: (alt ++ [93, 40] ++ tgt ++ [41])) ++ rest) := by
    simp [newImgRef]
  have hlen : (91 :: (alt ++ [93, 40] ++ tgt ++ [41])).length = a + t + 4 := by
    simp [hla, hlt]; omega
  rw [hsplit] at hmh ⊢
  rw [scanAux, hmh]
  simp only []
  rw [← hlen, scanAux_skip, hlen]
  congr 2
  omega

theorem scanAux_length_off (s : List Nat) (off off2 skip : Nat) :
    (scanAux s off skip).length = (scanAux s off2 skip).length := by
  induction s generalizing off off2 skip with
  | nil => simp [scanAux]
  | cons c s ih =>
    cases skip with
    | succ skip => rw [scanAux, scanAux]; exact ih _ _ _
    | zero =>
      rw [scanAux, scanAux]
      split
      · simp only [List.length_cons]; rw [ih (off + 1) (off2 + 1)]
      · exact ih _ _ _

/-- The first match of a scan splits the input into the bytes before it, where
the pattern does not match, the reference, and the rest, whose scan gives the
remaining matches. -/
theorem scanAux_cons {s : List Nat} {off : Nat} {m : Match} {ms : List Match}
    (hs : scanAux s off 0 = m :: ms) :
    ∃ g alt tgt rest, s = g ++ (newImgRef alt tgt ++ rest) ∧
      m = mkMatch (off + g.length) alt.length tgt.length ∧
      10 ∉ alt ∧ 10 ∉ tgt ∧ 41 ∉ tgt ∧
      matchHere (newImgRef alt tgt ++ rest) = some (alt.length, tgt.length) ∧
      (∀ j < g.length, matchHere (s.drop j) = none) ∧
      scanAux rest (off + g.length + (alt.length + tgt.length + 5)) 0 = ms := by
  obtain ⟨k, a, t, hm, hmh, hlt⟩ := scanAux_head hs
  obtain ⟨alt, tgt, rest, hsplit, rfl, rfl, ha, ht, ht'⟩ := matchHere_some hmh
  have hk : k ≤ s.length := by
    by_contra hlt'
    rw [List.drop_eq_nil_of_le (by omega)] at hsplit
    simp [newImgRef] at hsplit
  have hlen : (s.take k).length = k := by rw [List.length_take, Nat.min_eq_left hk]
  have hs' : s = s.take k ++ (newImgRef alt tgt ++ rest) := by
    rw [← hsplit, List.take_append_drop]
  rw [hsplit] at hmh
  refine ⟨s.take k, alt, tgt, rest, hs', by rw [hlen]; exact hm, ha, ht, ht', hmh,
    by rw [hlen]; exact hlt, ?_⟩
  have hscan : scanAux s off 0
      = mkMatch (off + k) alt.length tgt.length
        :: scanAux rest (off + k + (alt.length + tgt.length + 5)) 0 := by
    conv_lhs => rw [hs']
    rw [scanAux_gap _ _ _ (by rw [← hs', hlen]; exact hlt), hlen]
    exact scanAux_match _ rfl rfl hmh
  rw [hscan] at hs
  rw [hlen]
  exact (List.cons.inj hs).2

theorem outcomes_length (h : Host) (filePath : List Nat) (config : GitHubConfig)
    (content : List Nat) (ms : List Match) (st : State) :
    (outcomes h filePath config content ms st).length = ms.length := by
  induction ms generalizing st with
  | nil => rfl
  | cons m ms ih =>
    rw [outcomes]
    split_ifs
    · simp [ih]
    · simp [ih]
    · split <;> simp [ih]

theorem processLoop_newContent (h : Host) (filePath : List Nat) (config : GitHubConfig)
    (content : List Nat) (ms : List Match) (ls : LoopState) :
    (processLoop h filePath config content ms ls).newContent =
      (ms.zip (outcomes h filePath config content ms ls.st)).foldl (applyOutcome content)
        ls.newContent := by
  induction ms generalizing ls with
  | nil => rfl
  | cons m ms ih =>
    have hi := ih (processMatch h filePath config content m ls)
    rw [processLoop, outcomes, hi]
    cases hr : isRemote (slice content m.urlStart m.urlEnd) with
    | true =>
      rw [processMatch_remote _ _ _ _ _ _ hr]
      simp [hr, applyOutcome]
    | false =>
      cases hn : h.notExist (h.imgPath filePath (slice content m.urlStart m.urlEnd)) with
      | true =>
        rw [processMatch_missing _ _ _ _ _ _ hr hn]
        simp [hr, hn, applyOutcome]
      | false =>
        rcases hup : uploadImageToGitHub h (h.imgPath filePath
          (slice content m.urlStart m.urlEnd)) config ls.st with ⟨res, st1⟩
        cases res with
        | error e =>
          rw [processMatch_failed _ _ _ _ _ _ e st1 hr hn hup]
          simp [hr, hn, applyOutcome]
        | ok u =>
          rw [processMatch_uploaded _ _ _ _ _ _ u st1 hr hn hup]
          simp [hr, hn, applyOutcome]

theorem outcomes_uploaded_isRemote (h : Host) (filePath : List Nat) (config : GitHubConfig)
    (content : List Nat) (ms : List Match) (st : State) (hcdn : config.UseCDN = true) :
    ∀ u, RefOutcome.uploaded u ∈ outcomes h filePath config content ms st →
      isRemote u = true := by
  induction ms generalizing st with
  | nil => intro u hu; simp [outcomes] at hu
  | cons m ms ih =>
    intro u hu
    rw [outcomes] at hu
    split_ifs at hu
    · rcases List.mem_cons.mp hu with hu | hu
      · cases hu
      · exact ih _ u hu
    · rcases List.mem_cons.mp hu with hu | hu
      · cases hu
      · exact ih _ u hu
    · split at hu
      · rcases List.mem_cons.mp hu with hu | hu
        · cases hu
        · exact ih _ u hu
      · rename_i newURL st1 hup
        rcases List.mem_cons.mp hu with hu | hu
        · cases hu
          rw [uploadImageToGitHub_cdn hcdn hup]
          exact isRemote_cdnURL _ _
        · exact ih _ u hu

theorem isPrefixOf_append_right (old a z1 z2 : List Nat) (hl : old.length ≤ a.length) :
    old.isPrefixOf (a ++ z1) = old.isPrefixOf (a ++ z2) := by
  have key : ∀ z : List Nat, old.isPrefixOf (a ++ z) = true ↔ old <+: a := by
    intro z
    rw [List.isPrefixOf_iff_prefix]
    constructor
    · intro hp
      exact List.prefix_of_prefix_length_le hp (List.prefix_append _ _) hl
    · intro hp
      exact hp.trans (List.prefix_append _ _)
  cases h1 : old.isPrefixOf (a ++ z1) with
  | true => exact ((key z2).mpr ((key z1).mp h1)).symm
  | false =>
    cases h2 : old.isPrefixOf (a ++ z2) with
    | true => rw [(key z1).mpr ((key z2).mp h2)] at h1; cases h1
    | false => rfl

theorem isPrefixOf_drop_stable (a old z1 z2 : List Nat) (j : Nat) (hj : j < a.length) :
    old.isPrefixOf ((a ++ (old ++ z1)).drop j) = old.isPrefixOf ((a ++ (old ++ z2)).drop j) := by
  rw [List.drop_append_of_le_length (by omega), List.drop_append_of_le_length (by omega)]
  rw [← List.append_assoc, ← List.append_assoc]
  apply isPrefixOf_append_right
  simp

theorem mkMatch_fields (off a t : Nat) :
    (mkMatch off a t).lo = off ∧ (mkMatch off a t).hi = off + a + t + 5 ∧
    (mkMatch off a t).altTextStart = off + 2 ∧ (mkMatch off a t).altTextEnd = off + 2 + a ∧
    (mkMatch off a t).urlStart = off + a + 4 ∧ (mkMatch off a t).urlEnd = off + a + 4 + t :=
  ⟨rfl, rfl, rfl, rfl, rfl, rfl⟩

/-- When the text of no uploaded reference occurs before its own span, the
replacements of the loop, made from the last reference to the first, give the
document with exactly those spans rewritten. -/
theorem foldl_applyOutcome_rewriteSpans (ms : List Match) :
    ∀ (s : List Nat) (off : Nat) (P : List Nat) (os : List RefOutcome),
      off = P.length → scanAux s off 0 = ms → os.length = ms.length →
      (∀ p ∈ ms.zip os, p.2.isUploaded = true →
        ∀ j < p.1.lo, (slice (P ++ s) p.1.lo p.1.hi).isPrefixOf ((P ++ s).drop j) = false) →
      (ms.zip os).reverse.foldl (applyOutcome (P ++ s)) (P ++ s)
        = P ++ rewriteSpans s off (ms.zip os) := by
  induction ms with
  | nil => intro s off P os _ _ _ _; simp [rewriteSpans]
  | cons m ms ih =>
    intro s off P os hoff hscan hlen hpos
    cases os with
    | nil => simp at hlen
    | cons o os =>
      obtain ⟨g, alt, tgt, rest, hs, hm, ha, ht, ht', hmh, hgap, hrest⟩ := scanAux_cons hscan
      obtain ⟨hlo, hhi, has, hae, _, _⟩ := mkMatch_fields (off + g.length) alt.length tgt.length
      rw [← hm] at hlo hhi has hae
      have hC : P ++ s = (P ++ g ++ newImgRef alt tgt) ++ rest := by
        rw [hs]; simp only [List.append_assoc]
      have hoff' : off + g.length + (alt.length + tgt.length + 5)
          = (P ++ g ++ newImgRef alt tgt).length := by
        simp only [List.length_append, length_newImgRef, hoff]
      have hi := ih rest _ (P ++ g ++ newImgRef alt tgt) os hoff' hrest
        (by simpa using hlen)
        (by
          intro p hp hu j hj
          rw [← hC]
          exact hpos p (List.mem_cons_of_mem _ hp) hu j hj)
      rw [← hC] at hi
      simp only [List.zip_cons_cons, List.reverse_cons, List.foldl_append, List.foldl_cons,
        List.foldl_nil]
      rw [hi]
      -- the pieces of `rewriteSpans` at the head reference
      have hmlo : m.lo - off = g.length := by omega
      have hmhi : m.hi - off = g.length + (newImgRef alt tgt).length := by
        rw [length_newImgRef]; omega
      have hmhi' : m.hi = off + g.length + (alt.length + tgt.length + 5) := by omega
      have htake : s.take (m.lo - off) = g := by rw [hmlo, hs]; simp
      have hdrop : s.drop (m.hi - off) = rest := by
        rw [hmhi, hs]; exact (take_drop_of_split g (newImgRef alt tgt) rest).2
      have hold : slice s (m.lo - off) (m.hi - off) = newImgRef alt tgt := by
        rw [hmlo, hmhi, hs]; exact slice_append_left g _ rest
      have halt : slice s (m.altTextStart - off) (m.altTextEnd - off) = alt := by
        have h1 : m.altTextStart - off = g.length + 2 := by omega
        have h2 : m.altTextEnd - off = g.length + 2 + alt.length := by omega
        rw [h1, h2, hs]; exact slice_newImgRef_alt g alt tgt rest
      have hCs : P ++ s = (P ++ g) ++ (newImgRef alt tgt ++ rest) := by
        rw [hs]; simp only [List.append_assoc]
      have hPg : (P ++ g).length = m.lo := by simp only [List.length_append]; omega
      have holdC : slice (P ++ s) m.lo m.hi = newImgRef alt tgt := by
        rw [hCs, ← hPg]
        have : m.hi = (P ++ g).length + (newImgRef alt tgt).length := by
          rw [length_newImgRef, hPg]; omega
        rw [this]; exact slice_append_left _ _ _
      have haltC : slice (P ++ s) m.altTextStart m.altTextEnd = alt := by
        have h1 : m.altTextStart = (P ++ g).length + 2 := by rw [hPg]; omega
        have h2 : m.altTextEnd = (P ++ g).length + 2 + alt.length := by rw [hPg]; omega
        rw [hCs, h1, h2]; exact slice_newImgRef_alt _ alt tgt rest
      rw [← hmhi'] at hi ⊢
      rw [rewriteSpans, htake, hdrop]
      cases o with
      | uploaded u =>
        simp only [applyOutcome, spanText, holdC, haltC, halt]
        have hfirst : ∀ j < (P ++ g).length, (newImgRef alt tgt).isPrefixOf
            (((P ++ g) ++ (newImgRef alt tgt
              ++ rewriteSpans rest m.hi (ms.zip os))).drop j) = false := by
          intro j hj
          rw [isPrefixOf_drop_stable (P ++ g) (newImgRef alt tgt) _ rest j hj, ← hCs, ← holdC]
          exact hpos (m, .uploaded u) (by simp) rfl j (by rw [← hPg]; exact hj)
        have := bytesReplace1_at (P ++ g) (newImgRef alt tgt) (newImgRef alt u) _ hfirst
        simp only [List.append_assoc] at this ⊢
        exact this
      | remote => simp only [applyOutcome, spanText, hold, List.append_assoc]
      | missing => simp only [applyOutcome, spanText, hold, List.append_assoc]
      | failed e => simp only [applyOutcome, spanText, hold, List.append_assoc]

theorem leftOver_cons {u w : List Nat} {c : Nat} (h : leftOver u = c :: w) : c = 41 := by
  induction u with
  | nil => simp [leftOver] at h
  | cons b u ih =>
    unfold leftOver at h ih
    rw [List.dropWhile_cons] at h
    split at h
    · exact ih h
    · rename_i hb
      simp only [List.cons.injEq] at h
      rw [← h.1]
      simpa using hb

theorem readBack_append_leftOver (u : List Nat) : readBack u ++ leftOver u = u :=
  List.takeWhile_append_dropWhile _ u

theorem not_mem_readBack (u : List Nat) : 41 ∉ readBack u := by
  induction u with
  | nil => simp [readBack]
  | cons b u ih =>
    unfold readBack at ih ⊢
    rw [List.takeWhile_cons]
    split
    · rename_i hb
      simp only [List.mem_cons, not_or]
      exact ⟨fun e => by simp [← e] at hb, ih⟩
    · simp

theorem isPrefixOf_readBack (scheme u : List Nat) (hs : 41 ∉ scheme)
    (hp : scheme.isPrefixOf u = true) : scheme.isPrefixOf (readBack u) = true := by
  induction scheme generalizing u with
  | nil => simp
  | cons c scheme ih =>
    simp only [List.mem_cons, not_or] at hs
    cases u with
    | nil => simp at hp
    | cons b u =>
      simp only [List.isPrefixOf, Bool.and_eq_true, beq_iff_eq] at hp
      obtain ⟨rfl, hp⟩ := hp
      have hc : decide (c ≠ 41) = true := by
        simpa using fun e : c = 41 => hs.1 e.symm
      unfold readBack at ih ⊢
      rw [List.takeWhile_cons, hc]
      simp only [if_true, List.isPrefixOf, Bool.and_eq_true, beq_iff_eq, true_and]
      exact ih u hs.2 hp

theorem isRemote_readBack {u : List Nat} (hr : isRemote u = true) :
    isRemote (readBack u) = true := by
  unfold isRemote hasPrefix at hr ⊢
  rcases Bool.or_eq_true _ _ |>.mp hr with h | h
  · rw [isPrefixOf_readBack httpScheme u (by decide) h]; rfl
  · rw [isPrefixOf_readBack httpsScheme u (by decide) h]; simp

/-- The pattern matches nowhere inside bytes that hold no `![` and end in `)`,
whatever follows them. -/
theorem matchHere_none_of_hasBang (w X : List Nat) (hw : hasBang w = false) :
    ∀ j < (w ++ [41]).length, matchHere (((w ++ [41]) ++ X).drop j) = none := by
  induction w with
  | nil =>
    intro j hj
    have hj0 : j = 0 := by simp at hj; omega
    subst hj0
    simp [matchHere]
  | cons c w ih =>
    simp only [hasBang, Bool.or_eq_false_iff, Bool.and_eq_false_imp, beq_iff_eq] at hw
    intro j hj
    cases j with
    | zero =>
      simp only [List.drop_zero, List.cons_append]
      cases hm : matchHere (c :: (w ++ [41] ++ X)) with
      | none => rfl
      | some at' =>
        exfalso
        obtain ⟨alt, tgt, rest, hsplit, _⟩ := matchHere_some (a := at'.1) (t := at'.2) hm
        simp only [newImgRef, List.cons_append, List.nil_append, List.append_assoc,
          List.cons.injEq] at hsplit
        obtain ⟨hc, hrest⟩ := hsplit
        have h91 := hw.1 hc
        cases w with
        | nil => simp at hrest
        | cons d w' =>
          simp only [List.cons_append, List.cons.injEq] at hrest
          simp [hrest.1] at h91
    | succ j =>
      simp only [List.cons_append, List.drop_succ_cons]
      exact ih hw.2 j (by simp at hj ⊢; omega)

/-- The text `![alt](address)` is `![alt](readBack address)` followed by bytes in
which the pattern matches nowhere, when the address holds no `![` after its
first `)`. -/
theorem newImgRef_readBack (alt u : List Nat) (hb : hasBang (leftOver u) = false) :
    ∃ L, newImgRef alt u = newImgRef alt (readBack u) ++ L ∧
      ∀ X, ∀ j < L.length, matchHere ((L ++ X).drop j) = none := by
  have hu := readBack_append_leftOver u
  cases hl : leftOver u with
  | nil =>
    refine ⟨[], ?_, by intro X j hj; simp at hj⟩
    rw [hl, List.append_nil] at hu
    rw [hu, List.append_nil]
  | cons c w =>
    have hc := leftOver_cons hl
    subst hc
    rw [hl] at hu hb
    have hw : hasBang w = false := by
      simpa [hasBang] using hb
    refine ⟨w ++ [41], ?_, fun X => matchHere_none_of_hasBang w X hw⟩
    conv_lhs => rw [← hu]
    simp [newImgRef]

/-- Scanning the rewritten document finds the same references in the same order,
each uploaded one with the part of its address before the first `)` as target,
when no address holds a line feed before its first `)` or `![` after it. -/
theorem scanAux_rewriteSpans (ms : List Match) :
    ∀ (s : List Nat) (off : Nat) (P P' : List Nat) (os : List RefOutcome),
      off = P.length → scanAux s off 0 = ms → os.length = ms.length →
      (∀ p ∈ ms.zip os, ∀ u ∈ p.2.address,
        isRemote u = true ∧ 10 ∉ readBack u ∧ hasBang (leftOver u) = false) →
      List.Forall₂ (RescannedAs (P ++ s) (P' ++ rewriteSpans s off (ms.zip os)))
        (ms.zip os) (scanAux (rewriteSpans s off (ms.zip os)) P'.length 0) := by
  induction ms with
  | nil =>
    intro s off P P' os _ hscan _ _
    have hnil : scanAux s P'.length 0 = [] := by
      apply List.eq_nil_of_length_eq_zero
      rw [scanAux_length_off s P'.length off 0, hscan]; rfl
    simp only [List.zip_nil_left, rewriteSpans, hnil]
    exact List.Forall₂.nil
  | cons m ms ih =>
    intro s off P P' os hoff hscan hlen haddr
    cases os with
    | nil => simp at hlen
    | cons o os =>
      obtain ⟨g, alt, tgt, rest, hs, hm, ha, ht, ht', hmh, hgap, hrest⟩ := scanAux_cons hscan
      obtain ⟨hlo, hhi, has, hae, hus, hue⟩ :=
        mkMatch_fields (off + g.length) alt.length tgt.length
      rw [← hm] at hlo hhi has hae hus hue
      -- the target the reference has in the output, and what follows it
      obtain ⟨u', L, hnew, hu10, hu41, hL, hrel⟩ : ∃ u' L,
          spanText s off m o = newImgRef alt u' ++ L ∧ 10 ∉ u' ∧ 41 ∉ u' ∧
          (∀ X, ∀ j < L.length, matchHere ((L ++ X).drop j) = none) ∧
          (match o with
            | .uploaded newURL => u' = readBack newURL ∧ isRemote u' = true ∧
                newImgRef alt u' ++ L = newImgRef alt newURL
            | _ => u' = tgt) := by
        have hold : slice s (m.lo - off) (m.hi - off) = newImgRef alt tgt := by
          have h1 : m.lo - off = g.length := by omega
          have h2 : m.hi - off = g.length + (newImgRef alt tgt).length := by
            rw [length_newImgRef]; omega
          rw [h1, h2, hs]; exact slice_append_left g _ rest
        have halt : slice s (m.altTextStart - off) (m.altTextEnd - off) = alt := by
          have h1 : m.altTextStart - off = g.length + 2 := by omega
          have h2 : m.altTextEnd - off = g.length + 2 + alt.length := by omega
          rw [h1, h2, hs]; exact slice_newImgRef_alt g alt tgt rest
        have hnone : ∀ X : List Nat, ∀ j < ([] : List Nat).length,
            matchHere ((([] : List Nat) ++ X).drop j) = none := by
          intro X j hj; simp at hj
        cases o with
        | uploaded u =>
          have hu := haddr (m, .uploaded u) (by simp) u rfl
          obtain ⟨L, hsplit, hL⟩ := newImgRef_readBack alt u hu.2.2
          exact ⟨readBack u, L, by simp only [spanText, halt]; exact hsplit, hu.2.1,
            not_mem_readBack u, hL, rfl, isRemote_readBack hu.1, hsplit.symm⟩
        | remote => exact ⟨tgt, [], by simp only [spanText, hold, List.append_nil], ht, ht',
            hnone, rfl⟩
        | missing => exact ⟨tgt, [], by simp only [spanText, hold, List.append_nil], ht, ht',
            hnone, rfl⟩
        | failed e => exact ⟨tgt, [], by simp only [spanText, hold, List.append_nil], ht, ht',
            hnone, rfl⟩
      have hmlo : m.lo - off = g.length := by omega
      have hmhi : m.hi - off = g.length + (newImgRef alt tgt).length := by
        rw [length_newImgRef]; omega
      have hmhi' : m.hi = off + g.length + (alt.length + tgt.length + 5) := by omega
      have htake : s.take (m.lo - off) = g := by rw [hmlo, hs]; simp
      have hdrop : s.drop (m.hi - off) = rest := by
        rw [hmhi, hs]; exact (take_drop_of_split g (newImgRef alt tgt) rest).2
      have hout : rewriteSpans s off ((m :: ms).zip (o :: os))
          = g ++ (newImgRef alt u' ++ (L
            ++ rewriteSpans rest (off + g.length + (alt.length + tgt.length + 5))
              (ms.zip os))) := by
        rw [List.zip_cons_cons, rewriteSpans, htake, hdrop, hnew, hmhi']
        simp only [List.append_assoc]
      generalize hR : rewriteSpans rest (off + g.length + (alt.length + tgt.length + 5))
        (ms.zip os) = R at hout
      -- the scan of the output up to and including this reference
      have hmh' : matchHere (newImgRef alt u' ++ (L ++ R)) = some (alt.length, u'.length) := by
        have h1 : lazyAlt (alt ++ 93 :: 40 :: (tgt ++ 41 :: rest))
            = some (alt.length, tgt.length) := by
          simpa [newImgRef, matchHere] using hmh
        have h2 := lazyAlt_replace_target h1 ha ht (lazyTarget_of_append (L ++ R) hu10 hu41)
        simpa [newImgRef, matchHere] using h2
      have hY : newImgRef alt u' ++ (L ++ R)
          = 33 :: (91 :: (alt ++ 93 :: 40 :: (u' ++ 41 :: (L ++ R)))) := by
        simp [newImgRef]
      have hgap' : ∀ j < g.length,
          matchHere ((g ++ (newImgRef alt u' ++ (L ++ R))).drop j) = none := by
        intro j hj
        have h0 := hgap j hj
        rw [hs, List.drop_append_of_le_length (by omega)] at h0
        rw [List.drop_append_of_le_length (by omega), hY]
        exact matchHere_none_stable (by
          intro hnil
          have := congrArg List.length hnil
          simp at this
          omega) ha ht h0
      have hscan' : scanAux (g ++ (newImgRef alt u' ++ (L ++ R))) P'.length 0
          = mkMatch (P'.length + g.length) alt.length u'.length
            :: scanAux R (P'.length + g.length + (alt.length + u'.length + 5) + L.length) 0 := by
        rw [scanAux_gap _ _ _ hgap', scanAux_match _ rfl rfl hmh', scanAux_gap L R _ (hL R)]
      -- the references after this one
      have hCP : P ++ s = (P ++ g ++ newImgRef alt tgt) ++ rest := by
        rw [hs]; simp only [List.append_assoc]
      have hCP' : P' ++ (g ++ (newImgRef alt u' ++ (L ++ R)))
          = (P' ++ g ++ newImgRef alt u' ++ L) ++ R := by
        simp only [List.append_assoc]
      have hoff' : off + g.length + (alt.length + tgt.length + 5)
          = (P ++ g ++ newImgRef alt tgt).length := by
        simp only [List.length_append, length_newImgRef, hoff]
      have hi := ih rest _ (P ++ g ++ newImgRef alt tgt) (P' ++ g ++ newImgRef alt u' ++ L) os
        hoff' hrest (by simpa using hlen)
        (fun p hp => haddr p (List.mem_cons_of_mem _ hp))
      rw [hR, ← hCP] at hi
      have hlen' : (P' ++ g ++ newImgRef alt u' ++ L).length
          = P'.length + g.length + (alt.length + u'.length + 5) + L.length := by
        simp only [List.length_append, length_newImgRef]
      rw [hlen'] at hi
      rw [hout, hscan', hCP', List.zip_cons_cons]
      refine List.Forall₂.cons ?_ hi
      -- this reference
      have hPg : (P ++ g).length = m.lo := by simp only [List.length_append]; omega
      have hCs : P ++ s = (P ++ g) ++ (newImgRef alt tgt ++ rest) := by
        rw [hs]; simp only [List.append_assoc]
      have hOs : (P' ++ g ++ newImgRef alt u' ++ L) ++ R
          = (P' ++ g) ++ (newImgRef alt u' ++ (L ++ R)) := by
        simp only [List.append_assoc]
      have hP'g : (P' ++ g).length = P'.length + g.length := by simp
      have haltC : slice (P ++ s) m.altTextStart m.altTextEnd = alt := by
        have h1 : m.altTextStart = (P ++ g).length + 2 := by rw [hPg]; omega
        have h2 : m.altTextEnd = (P ++ g).length + 2 + alt.length := by rw [hPg]; omega
        rw [hCs, h1, h2]; exact slice_newImgRef_alt _ alt tgt rest
      have hurlC : slice (P ++ s) m.urlStart m.urlEnd = tgt := by
        have h1 : m.urlStart = (P ++ g).length + alt.length + 4 := by rw [hPg]; omega
        have h2 : m.urlEnd = (P ++ g).length + alt.length + 4 + tgt.length := by
          rw [hPg]; omega
        rw [hCs, h1, h2]; exact slice_newImgRef_url _ alt tgt rest
      obtain ⟨_, _, has', hae', hus', hue'⟩ :=
        mkMatch_fields (P'.length + g.length) alt.length u'.length
      have haltO : slice ((P' ++ g ++ newImgRef alt u' ++ L) ++ R)
          (mkMatch (P'.length + g.length) alt.length u'.length).altTextStart
          (mkMatch (P'.length + g.length) alt.length u'.length).altTextEnd = alt := by
        rw [has', hae', hOs, ← hP'g]; exact slice_newImgRef_alt _ alt u' (L ++ R)
      have hurlO : slice ((P' ++ g ++ newImgRef alt u' ++ L) ++ R)
          (mkMatch (P'.length + g.length) alt.length u'.length).urlStart
          (mkMatch (P'.length + g.length) alt.length u'.length).urlEnd = u' := by
        rw [hus', hue', hOs, ← hP'g]; exact slice_newImgRef_url _ alt u' (L ++ R)
      refine ⟨by rw [haltO, haltC], ?_⟩
      cases o with
      | uploaded u =>
        simp only [] at hrel ⊢
        have hlo' := (mkMatch_fields (P'.length + g.length) alt.length u'.length).1
        have hO2 : (P' ++ g ++ newImgRef alt u' ++ L) ++ R
            = (P' ++ g) ++ (newImgRef alt u ++ R) := by
          rw [← hrel.2.2]; simp only [List.append_assoc]
        have hspanO : slice ((P' ++ g ++ newImgRef alt u' ++ L) ++ R)
            (mkMatch (P'.length + g.length) alt.length u'.length).lo
            ((mkMatch (P'.length + g.length) alt.length u'.length).lo
              + (newImgRef alt u).length) = newImgRef alt u := by
          rw [hlo', hO2, ← hP'g]; exact slice_append_left _ _ R
        refine ⟨by rw [haltC]; exact hspanO, by rw [hurlO]; exact hrel.1,
          by rw [hurlO]; exact hrel.2.1, ?_⟩
        intro h2 filePath2 config2 ls
        exact processMatch_remote _ _ _ _ _ _ (by rw [hurlO]; exact hrel.2.1)
      | remote => simp only [] at hrel ⊢; rw [hurlO, hurlC]; exact hrel
      | missing => simp only [] at hrel ⊢; rw [hurlO, hurlC]; exact hrel
      | failed e => simp only [] at hrel ⊢; rw [hurlO, hurlC]; exact hrel

theorem reverse_zip_outcomes (ms : List Match) (os : List RefOutcome)
    (hlen : os.length = ms.length) :
    ms.reverse.zip os = (ms.zip os.reverse).reverse := by
  have h : (List.zipWith Prod.mk ms os.reverse).reverse
      = List.zipWith Prod.mk ms.reverse os.reverse.reverse :=
    List.reverse_zipWith (by simp [hlen])
  simp only [List.reverse_reverse] at h
  exact h.symm

/-- C7, as the code has it. Take any document and any run of
`processMarkdownFile` on it (the document can be read and the output written)
in which every address an upload returns begins with `http://` or `https://`,
as it always does when `config.UseCDN` is set, holds no line feed before its
first `)` and no `![` after it, and in which the text of no uploaded reference
occurs in the document before its own span.  Then every uploaded reference is
replaced by `![alt](address)` at its own span, and scanning the output again
finds the same number of references in the same order: where the text
`![alt](address)` of an uploaded reference stands in the output it finds a
reference with the same alt text whose target (the address as far as its first
`)`) begins with `http://` or `https://`, so that the classifier tags it Remote
and a later run passes over it without an upload; every other reference is
found with its old alt text and target. -/
theorem rewritten_references_rescan_remote (h : Host) (filePath : List Nat)
    (config : GitHubConfig) (st : State) (content : List Nat)
    (hread : h.readFile filePath = some content)
    (hwrite : h.writeFails (outputFilePath filePath) = false)
    (haddr : ∀ p ∈ outcomesInOrder h filePath config content st, ∀ u ∈ p.2.address,
      (config.UseCDN = true ∨ isRemote u = true) ∧ 10 ∉ readBack u ∧
        hasBang (leftOver u) = false)
    (hspan : ∀ p ∈ outcomesInOrder h filePath config content st, p.2.isUploaded = true →
      ∀ j < p.1.lo, (slice content p.1.lo p.1.hi).isPrefixOf (content.drop j) = false) :
    ∃ r, (processMarkdownFile h filePath config st).1 = .ok r ∧
      r.output = rewriteSpans content 0 (outcomesInOrder h filePath config content st) ∧
      List.Forall₂ (RescannedAs content r.output)
        (outcomesInOrder h filePath config content st) (scan r.output) := by
  have hlen := outcomes_length h filePath config content (scan content).reverse st
  rw [List.length_reverse] at hlen
  have hlen' : (outcomes h filePath config content (scan content).reverse st).reverse.length
      = (scan content).length := by rw [List.length_reverse, hlen]
  -- what the loop leaves in `newContent`
  have hloop : (processLoop h filePath config content (scan content).reverse
      { newContent := content, imageCount := 0, st := st }).newContent
      = rewriteSpans content 0 (outcomesInOrder h filePath config content st) := by
    rw [processLoop_newContent, reverse_zip_outcomes _ _ hlen]
    have hA := foldl_applyOutcome_rewriteSpans (scan content) content 0 []
      (outcomes h filePath config content (scan content).reverse st).reverse rfl rfl hlen'
      (by simpa using hspan)
    simpa using hA
  -- the addresses are Remote
  have haddr' : ∀ p ∈ outcomesInOrder h filePath config content st, ∀ u ∈ p.2.address,
      isRemote u = true ∧ 10 ∉ readBack u ∧ hasBang (leftOver u) = false := by
    intro p hp u hu
    obtain ⟨hsch, h10, h41⟩ := haddr p hp u hu
    refine ⟨?_, h10, h41⟩
    rcases hsch with hcdn | hr
    · obtain ⟨m, o⟩ := p
      have ho : o ∈ (outcomes h filePath config content (scan content).reverse st).reverse :=
        (List.of_mem_zip hp).2
      rw [List.mem_reverse] at ho
      cases o with
      | uploaded u' =>
        have hu' : u' = u := by simpa [RefOutcome.address] using hu
        subst hu'
        exact outcomes_uploaded_isRemote h filePath config content _ st hcdn _ ho
      | remote => simp [RefOutcome.address] at hu
      | missing => simp [RefOutcome.address] at hu
      | failed e => simp [RefOutcome.address] at hu
    · exact hr
  have hB := scanAux_rewriteSpans (scan content) content 0 [] []
    (outcomes h filePath config content (scan content).reverse st).reverse rfl rfl hlen' haddr'
  simp only [List.nil_append, List.length_nil] at hB
  refine ⟨{ outputPath := outputFilePath filePath,
            imageCount := (processLoop h filePath config content (scan content).reverse
              { newContent := content, imageCount := 0, st := st }).imageCount,
            output := rewriteSpans content 0 (outcomesInOrder h filePath config content st) },
    ?_, rfl, hB⟩
  by_cases hz : (scan content).length = 0
  · have hnil : scan content = [] := List.length_eq_zero.mp hz
    simp [processMarkdownFile, hread, hwrite, hnil, outcomesInOrder, rewriteSpans, processLoop]
  · simp [processMarkdownFile, hread, hwrite, hz, hloop]

/-- C7, witness: the document
`![a](x.png) and ![m](gone.png) and ![b](http://h/y.png) and ![c](x.png)`, of
which `x.png` exists, with CDN addresses and the branch `fix(1)`: the first and
the last reference are uploaded, and their addresses hold parentheses. -/
theorem rewritten_references_rescan_remote_witness :
    (uploadImageToGitHub
        (okHost (str "![a](x.png) and ![m](gone.png) and ![b](http://h/y.png) and ![c](x.png)")
          [str "x.png"])
        (str "x.png") parenConfig State.init).1 =
      .ok (str "https://cdn.jsdelivr.net/gh/o/r@fix(1)/images/1730000000000000000.png") ∧
    ∃ r, (processMarkdownFile
        (okHost (str "![a](x.png) and ![m](gone.png) and ![b](http://h/y.png) and ![c](x.png)")
          [str "x.png"])
        (str "d.md") parenConfig State.init).1 = .ok r ∧
      r.output = rewriteSpans
        (str "![a](x.png) and ![m](gone.png) and ![b](http://h/y.png) and ![c](x.png)") 0
        (outcomesInOrder
          (okHost (str "![a](x.png) and ![m](gone.png) and ![b](http://h/y.png) and ![c](x.png)")
            [str "x.png"])
          (str "d.md") parenConfig
          (str "![a](x.png) and ![m](gone.png) and ![b](http://h/y.png) and ![c](x.png)")
          State.init) ∧
      List.Forall₂
        (RescannedAs
          (str "![a](x.png) and ![m](gone.png) and ![b](http://h/y.png) and ![c](x.png)")
          r.output)
        (outcomesInOrder
          (okHost (str "![a](x.png) and ![m](gone.png) and ![b](http://h/y.png) and ![c](x.png)")
            [str "x.png"])
          (str "d.md") parenConfig
          (str "![a](x.png) and ![m](gone.png) and ![b](http://h/y.png) and ![c](x.png)")
          State.init)
        (scan r.output) :=
  ⟨rfl,
    rewritten_references_rescan_remote
      (okHost (str "![a](x.png) and ![m](gone.png) and ![b](http://h/y.png) and ![c](x.png)")
        [str "x.png"])
      (str "d.md") parenConfig State.init
      (str "![a](x.png) and ![m](gone.png) and ![b](http://h/y.png) and ![c](x.png)")
      (by decide) (by decide) (by decide) (by decide)⟩

/-- C7, counterexample. With `UseCDN` off the address is the one the host
reports, taken as it is, and each of three addresses breaks the round trip.
(1) The host reports no address: `![a](x.png)` is rewritten to `![a]()`, and the
reference found again has an empty target, classified Local, not Remote.
(2) The host reports `https://h/a`, line feed, `b.png`: the rewritten text holds
a line feed before its `)`, and scanning the output finds no reference at all.
(3) The host reports `https://h/a)![b`: in `![a](x.png) ![b](x.png)` both
references are replaced at their own spans (bytes 0-21 and 22-43 of the
output), and scanning the output finds references at bytes 0-17 and 17-39, the
second with alt text `b) ![b`: none at byte 22, none with alt text `b`. -/
theorem host_address_need_not_be_remote :
    ((processMarkdownFile (reportHost [] (str "![a](x.png)") [str "x.png"]) (str "d.md")
        rawConfig State.init).1 =
      .ok { outputPath := str "d-processed.md", imageCount := 1, output := str "![a]()" } ∧
    scan (str "![a]()") = [mkMatch 0 1 0] ∧
    isRemote (slice (str "![a]()") (mkMatch 0 1 0).urlStart (mkMatch 0 1 0).urlEnd) = false) ∧
    ((processMarkdownFile
        (reportHost (str "https://h/a\nb.png") (str "![a](x.png)") [str "x.png"]) (str "d.md")
        rawConfig State.init).1 =
      .ok { outputPath := str "d-processed.md", imageCount := 1,
            output := str "![a](https://h/a\nb.png)" } ∧
    isRemote (str "https://h/a\nb.png") = true ∧
    scan (str "![a](https://h/a\nb.png)") = []) ∧
    ((processMarkdownFile
        (reportHost (str "https://h/a)![b") (str "![a](x.png) ![b](x.png)") [str "x.png"])
        (str "d.md") rawConfig State.init).1 =
      .ok { outputPath := str "d-processed.md", imageCount := 2,
            output := str "![a](https://h/a)![b) ![b](https://h/a)![b)" } ∧
    isRemote (str "https://h/a)![b") = true ∧
    scan (str "![a](x.png) ![b](x.png)") = [mkMatch 0 1 5, mkMatch 12 1 5] ∧
    scan (str "![a](https://h/a)![b) ![b](https://h/a)![b)")
      = [mkMatch 0 1 11, mkMatch 17 6 11] ∧
    slice (str "![a](https://h/a)![b) ![b](https://h/a)![b)")
        (mkMatch 17 6 11).altTextStart (mkMatch 17 6 11).altTextEnd = str "b) ![b") :=
  ⟨⟨rfl, by decide, by decide⟩, ⟨rfl, by decide, by decide⟩,
    ⟨rfl, by decide, by decide, by decide, by decide⟩⟩

end Mdimg2hub
